import Mathlib

/-!
# ppp::coroutines::YieldContext

A shallow embedding of `src/ppp/coroutines/YieldContext.cpp`: the coroutine
object, the four-state status word, the two context slots, and the functions
`Suspend`, `Resume`, `Invoke`, `Jump`, `Switch`, `Handle`, `Spawn` and `R`.

`jump_fcontext` suspends the running side and resumes another one, so every
source function that calls it is embedded in two pieces: the code up to the
jump (returning a `Call`), and the code that runs once the jump returns a
`transfer_t`.  The pieces are then composed twice, following the semantics of
the transfer: as total functions (`Resume`, `Invoke`, `runBody`) and as a
one-step machine (`step`) whose every intermediate state is visible.
-/

namespace ppp.coroutines

/-! ## Status word (lines 7-10) -/

def STATUS_RESUMED : Int := 0
def STATUS_SUSPENDING : Int := 1
def STATUS_SUSPEND : Int := 2
def STATUS_RESUMING : Int := -1

/-- The operation `std::atomic<int>::compare_exchange_strong(expected, desired)`:
the flag returned and the value the atomic holds afterwards. -/
def compare_exchange_strong (s expected desired : Int) : Bool × Int :=
  if s = expected then (true, desired) else (false, s)

/-! ## Data model -/

/-- The behaviour of a body `SpawnHander` (a `function<void(YieldContext&)>`) as
the engine sees it: the body returns (`done`), or calls `Suspend` on its handle
and goes on with `onTrue` or `onFalse` according to what `Suspend` returned. -/
inductive SpawnHander where
  | done : SpawnHander
  | suspend (onTrue onFalse : SpawnHander) : SpawnHander
  deriving DecidableEq, Repr

/-- An execution context `fcontext_t` (non-null): the point of suspended
execution it stands for. -/
inductive fcontext_t where
  /-- result of `make_fcontext(sp, size, &YieldContext::Handle)` -/
  | entry (sp size : Int) : fcontext_t
  /-- the coroutine, parked in the `jump_fcontext` of `Suspend`, with the rest of its body -/
  | parkedSuspend (onTrue onFalse : SpawnHander) : fcontext_t
  /-- the coroutine, parked in the final `Jump` of `Handle` -/
  | parkedHandle : fcontext_t
  /-- the resumer, parked in the `jump_fcontext` of `Resume` or `Invoke` -/
  | parkedResumer : fcontext_t
  deriving DecidableEq, Repr

/-- The record `boost::context::detail::transfer_t`: `fctx` is the context of
the side that jumped (`none` is NULL), `data` tells whether the payload pointer
is the coroutine (`true`) or NULL (`false`). -/
structure transfer_t where
  fctx : Option fcontext_t
  data : Bool
  deriving DecidableEq, Repr

/-- The buffer held by `stack_` (a `shared_ptr<Byte>`): its address and whether
its deleter returns it to the pool (`allocator->Free`) or frees it generically. -/
structure Stack where
  ptr : Int
  pooled : Bool
  deriving DecidableEq, Repr

/-- The fields of `class YieldContext` that the source file reads or writes.
Pointers are options (`none` is NULL); `context_` is the event loop whose queue
lives in `World`. -/
structure YieldContext where
  s_ : Int
  callee_ : Option fcontext_t
  caller_ : Option fcontext_t
  h_ : Option SpawnHander
  strand_ : Option Nat
  stack_ : Option Stack
  stack_size_ : Int
  allocator_ : Option Nat
  deriving DecidableEq, Repr

/-- The two closures named `invoked` in the source: the one of `Spawn` (calls
`y->Invoke()`) and the one of `R` (calls `y->Resume()` and `y->R()` on failure). -/
inductive Job where
  | Invoke : Job
  | R : Job
  deriving DecidableEq, Repr

/-- What the engine does that is visible from outside the coroutine object. -/
inductive Event where
  | Alloc (size : Int) : Event
  | make_shared_alloc (size : Int) : Event
  | make_fcontext (sp size : Int) : Event
  | jump_fcontext (target : Option fcontext_t) (data : Bool) : Event
  /-- the body `h(*y)` is called; `status` is the status word then -/
  | h (status : Int) : Event
  /-- a call of `Suspend` made by the body returns `result`; `status` is the status word then -/
  | SuspendReturn (result : Bool) (status : Int) : Event
  | Release : Event
  deriving DecidableEq, Repr

/-- The surroundings of the coroutine: the log of events, the queue of the
strand and the queue of the event loop (`context_`). -/
structure World where
  trace : List Event
  strand_queue : List Job
  context_queue : List Job
  deriving DecidableEq, Repr

structure Machine where
  y : YieldContext
  w : World
  deriving DecidableEq, Repr

def Machine.log (m : Machine) (e : Event) : Machine :=
  { m with w := { m.w with trace := m.w.trace ++ [e] } }

/-- The collaborators that are not part of the source file. -/
structure Env where
  /-- The value of `GetMemoryPageSize()` -/
  GetMemoryPageSize : Int
  /-- The call `allocator->Alloc(size)`: the address of the buffer, or NULL -/
  Alloc : Int → Option Int
  /-- The call `make_shared_alloc<Byte>(size)`: the address of the buffer, or NULL -/
  make_shared_alloc : Int → Option Int
  /-- whether `New<YieldContext>` obtains the memory of the object -/
  New : Bool
  /-- whether `Executors::Post` accepts a job -/
  Post : Bool

/-- Ways in which control does not come back to the caller. -/
inductive Fault where
  /-- a `std::runtime_error` is propagating -/
  | runtime_error : Fault
  /-- The call of `std::terminate`: an exception reached the boundary of a `noexcept` function,
  or left the function a context was made for -/
  | terminate : Fault
  /-- A `jump_fcontext` into NULL or into a context that is not parked on the other side -/
  | undefined : Fault
  /-- the function a context was made for returned -/
  | exit : Fault
  deriving DecidableEq, Repr

/-- The effect of the `noexcept` specifier on the outcome of a function body. -/
def noexcept {α : Type} : Except Fault α → Except Fault α
  | .error .runtime_error => .error .terminate
  | r => r

/-- How a source function that may call `jump_fcontext` proceeds: it returns
`a`, or it is parked in `jump_fcontext(target, data)`. -/
inductive Call (α : Type) where
  | returned (a : α) (m : Machine) : Call α
  | jumped (target : Option fcontext_t) (data : Bool) (m : Machine) : Call α

/-- What reaches the parked resumer when the coroutine side stops running. -/
inductive Back where
  | transfer (t : transfer_t) : Back
  | halt (f : Fault) : Back
  deriving DecidableEq, Repr

/-! ## Constructor, destructor, Release -/

/-- The constructor `YieldContext::YieldContext` (lines 12-40). -/
def YieldContext.ctor (env : Env) (allocator : Option Nat) (strand : Option Nat)
    (spawn : Option SpawnHander) (stack_size : Int) (w : World) : Machine :=
  let y : YieldContext :=
    { s_ := 0, callee_ := none, caller_ := none, h_ := spawn, strand_ := strand,
      stack_ := none, stack_size_ := stack_size, allocator_ := allocator }
  let m : Machine := { y := y, w := w }
  let m :=
    match allocator with
    | some _ =>
      let m := m.log (.Alloc stack_size)
      match env.Alloc stack_size with
      | some stack => { m with y := { m.y with stack_ := some { ptr := stack, pooled := true } } }
      | none => m
    | none => m
  match m.y.stack_ with
  | some _ => m
  | none =>
    let m := m.log (.make_shared_alloc stack_size)
    match env.make_shared_alloc stack_size with
    | some stack => { m with y := { m.y with stack_ := some { ptr := stack, pooled := false } } }
    | none => m

/-- The destructor `YieldContext::~YieldContext` (lines 42-50). -/
def YieldContext.dtor (y : YieldContext) : YieldContext :=
  { y with h_ := none, stack_ := none, stack_size_ := 0, strand_ := none, allocator_ := none }

/-- Modelled from the spec: `YieldContext::Release` is declared outside the
source file; the coroutine is "destroyed by Release", which runs the destructor
above. Every call is logged. -/
def Release (m : Machine) : Machine :=
  { m with y := m.y.dtor }.log .Release

/-! ## The functions of the source, cut at their `jump_fcontext` -/

/-- Source function `YieldContext::Suspend` (lines 76-82 and 87-90): up to the jump. -/
def Suspend (m : Machine) : Call Bool :=
  match compare_exchange_strong m.y.s_ STATUS_RESUMED STATUS_SUSPENDING with
  | (true, s) =>
    .jumped m.y.caller_ true { m with y := { m.y with s_ := s, caller_ := none } }
  | (false, _) => .returned false m

/-- Source function `YieldContext::Suspend` (lines 80 and 84-85): once the jump has returned `t`. -/
def Suspend_resumed (t : transfer_t) (m : Machine) : Bool × Machine :=
  let m := { m with y := { m.y with caller_ := t.fctx } }
  match compare_exchange_strong m.y.s_ STATUS_RESUMING STATUS_RESUMED with
  | (r, s) => (r, { m with y := { m.y with s_ := s } })

/-- Source function `YieldContext::Resume` (lines 95-101 and 103-106): up to the jump. -/
def Resume_entry (m : Machine) : Call Bool :=
  match compare_exchange_strong m.y.s_ STATUS_SUSPEND STATUS_RESUMING with
  | (true, s) =>
    .jumped m.y.callee_ true { m with y := { m.y with s_ := s, callee_ := none } }
  | (false, _) => .returned false m

/-- Source function `YieldContext::Invoke` (lines 111-118 and 120-123): up to the jump. -/
def Invoke_entry (m : Machine) : Call Unit :=
  match m.y.stack_ with
  | some stack =>
    let sp := stack.ptr + m.y.stack_size_
    .jumped (some (.entry sp m.y.stack_size_)) true (m.log (.make_fcontext sp m.y.stack_size_))
  | none => .returned () (Release m)

/-- Source function `YieldContext::Jump` (lines 126-134). -/
def Jump (context : Option fcontext_t) (state : Bool) (m : Machine) : Call transfer_t :=
  match context with
  | some c => .jumped (some c) state m
  | none => .returned { fctx := none, data := false } m

/-- Source function `YieldContext::Switch()` (lines 145-154), declared `noexcept(false)`. -/
def Switch (m : Machine) : Except Fault Bool × Machine :=
  match compare_exchange_strong m.y.s_ STATUS_SUSPENDING STATUS_SUSPEND with
  | (true, s) => (.ok true, { m with y := { m.y with s_ := s } })
  | (false, _) => (.error .runtime_error, m)

/-- Source function `YieldContext::Switch(const transfer_t&, YieldContext*)` (lines 156-168),
declared `noexcept`. -/
def SwitchTransfer (t : transfer_t) (m : Machine) : Except Fault Bool × Machine :=
  if t.data then
    let m := { m with y := { m.y with callee_ := t.fctx } }
    match Switch m with
    | (r, m) => (noexcept r, m)
  else
    (.ok true, Release m)

/-- Source function `YieldContext::Resume` (lines 99-101): once the jump has returned `t`. -/
def Resume_resumed (t : transfer_t) (m : Machine) : Except Fault Bool × Machine :=
  match SwitchTransfer t m with
  | (r, m) => (noexcept r, m)

/-- Source function `YieldContext::Invoke` (line 118): once the jump has returned `t`. -/
def Invoke_resumed (t : transfer_t) (m : Machine) : Except Fault Unit × Machine :=
  match SwitchTransfer t m with
  | (r, m) => (noexcept (r.map fun _ => ()), m)

/-- Source function `YieldContext::Handle` (lines 175-177), for a non-null `y`: the body taken
out of the coroutine, and the coroutine afterwards. -/
def Handle_entry (t : transfer_t) (m : Machine) : Option SpawnHander × Machine :=
  (m.y.h_, { m with y := { m.y with h_ := none, caller_ := t.fctx } })

/-- Source function `YieldContext::Handle` (line 185): the final `Jump`. -/
def Handle_tail (m : Machine) : Call transfer_t :=
  Jump m.y.caller_ false { m with y := { m.y with caller_ := none } }

/-- Source function `YieldContext::Handle` (lines 186-190): once the final `Jump` has returned.
The exception leaves the function the context was made for. -/
def Handle_resumed (m : Machine) : Fault × Machine :=
  let m1 := { m with y := { m.y with callee_ := none } }
  match m.y.callee_ with
  | some _ => (.terminate, m1)
  | none => (.exit, m1)

/-! ## The transfer of control, and the functions composed along it -/

/-- The call `jump_fcontext(target, data)` made on the coroutine stack from the
point `self`: the parked resumer goes on with the `transfer_t` it receives. -/
def leave (self : fcontext_t) (target : Option fcontext_t) (data : Bool) (m : Machine) :
    Back × Machine :=
  let m := m.log (.jump_fcontext target data)
  match target with
  | some .parkedResumer => (.transfer { fctx := some self, data := data }, m)
  | _ => (.halt .undefined, m)

/-- The coroutine stack running the rest of the body and then the end of
`Handle` (lines 179-189), until it jumps out or stops. A call of `Suspend` that
returns at once hands its result to the body, which goes on. -/
def runBody : SpawnHander → Machine → Back × Machine
  | .done, m =>
    match Handle_tail m with
    | .jumped target data m => leave .parkedHandle target data m
    | .returned _ m =>
      match Handle_resumed m with
      | (f, m) => (.halt f, m)
  | .suspend onTrue onFalse, m =>
    match Suspend m with
    | .jumped target data m => leave (.parkedSuspend onTrue onFalse) target data m
    | .returned true m => runBody onTrue (m.log (.SuspendReturn true m.y.s_))
    | .returned false m => runBody onFalse (m.log (.SuspendReturn false m.y.s_))

/-- Source function `YieldContext::Handle` (lines 170-191), entered on a fresh context with `t`. -/
def Handle (t : transfer_t) (m : Machine) : Back × Machine :=
  if t.data then
    match Handle_entry t m with
    | (some h, m) => runBody h (m.log (.h m.y.s_))
    | (none, m) => runBody .done m
  else
    (.halt .exit, m)

/-- The call `jump_fcontext(target, data)` made by the resumer: the target runs
with the resumer's context and `data`, until the coroutine jumps back or stops. -/
def enter (target : Option fcontext_t) (data : Bool) (m : Machine) : Back × Machine :=
  let m := m.log (.jump_fcontext target data)
  let t : transfer_t := { fctx := some .parkedResumer, data := data }
  match target with
  | some (.entry _ _) => Handle t m
  | some (.parkedSuspend onTrue onFalse) =>
    match Suspend_resumed t m with
    | (true, m) => runBody onTrue (m.log (.SuspendReturn true m.y.s_))
    | (false, m) => runBody onFalse (m.log (.SuspendReturn false m.y.s_))
  | some .parkedHandle =>
    match Handle_resumed m with
    | (f, m) => (.halt f, m)
  | some .parkedResumer => (.halt .undefined, m)
  | none => (.halt .undefined, m)

/-- Source function `YieldContext::Resume` (lines 93-107), from call to return. -/
def Resume (m : Machine) : Except Fault Bool × Machine :=
  match Resume_entry m with
  | .returned r m => (.ok r, m)
  | .jumped target data m =>
    match enter target data m with
    | (.transfer t, m) => Resume_resumed t m
    | (.halt f, m) => (.error f, m)

/-- Source function `YieldContext::Invoke` (lines 109-124), from call to return. -/
def Invoke (m : Machine) : Except Fault Unit × Machine :=
  match Invoke_entry m with
  | .returned r m => (.ok r, m)
  | .jumped target data m =>
    match enter target data m with
    | (.transfer t, m) => Invoke_resumed t m
    | (.halt f, m) => (.error f, m)

/-! ## Scheduler binding -/

/-- Source function `YieldContext::Spawn` (lines 193-229): the result, the coroutine built (if
any) and the surroundings afterwards. -/
def Spawn (env : Env) (allocator : Option Nat) (strand : Option Nat)
    (spawn : Option SpawnHander) (stack_size : Int) (w : World) :
    Bool × Option YieldContext × World :=
  match spawn with
  | none => (false, none, w)
  | some _ =>
    let pagesize := env.GetMemoryPageSize
    let stack_size := max stack_size pagesize
    if env.New then
      let m := YieldContext.ctor env allocator strand spawn stack_size w
      match strand with
      | some _ => (true, some m.y, { m.w with strand_queue := m.w.strand_queue ++ [.Invoke] })
      | none => (true, some m.y, { m.w with context_queue := m.w.context_queue ++ [.Invoke] })
    else
      (false, none, w)

/-- Modelled from the spec: `Executors::Post(context, strand, handler)` is
declared outside the source file; `post(job)` "schedules job to run later", on
the serialized queue when one is bound and on the event loop otherwise. -/
def Executors.Post (env : Env) (strand : Option Nat) (job : Job) (w : World) : Bool × World :=
  if env.Post then
    match strand with
    | some _ => (true, { w with strand_queue := w.strand_queue ++ [job] })
    | none => (true, { w with context_queue := w.context_queue ++ [job] })
  else
    (false, w)

/-- Source function `YieldContext::R` (lines 231-246). -/
def R (env : Env) (m : Machine) : Bool × Machine :=
  match Executors.Post env m.y.strand_ .R m.w with
  | (r, w) => (r, { m with w := w })

/-- The closure `invoked` of `R` (lines 235-242), when the queue runs it. -/
def R_invoked (env : Env) (m : Machine) : Except Fault Unit × Machine :=
  match Resume m with
  | (.ok resumed, m) => if !resumed then (.ok (), (R env m).2) else (.ok (), m)
  | (.error f, m) => (.error f, m)

/-! ## One-step machine -/

/-- Where control is. -/
inductive Control where
  /-- constructed by `Spawn`; the posted `Invoke` has not run; no engine call in progress -/
  | spawned : Control
  /-- The posted `Invoke` has run; no engine call in progress -/
  | outside : Control
  /-- the coroutine stack runs the body, of which `rest` remains -/
  | body (rest : SpawnHander) : Control
  /-- a `jump_fcontext` is landing: `target` goes on with `t` -/
  | landing (target : fcontext_t) (t : transfer_t) : Control
  | stopped (f : Fault) : Control
  deriving DecidableEq, Repr

structure Config where
  m : Machine
  ctl : Control
  deriving DecidableEq, Repr

/-- What happens next: the job posted by `Spawn` runs, somebody outside the
coroutine calls `Resume`, or the side that has control goes on. -/
inductive Action where
  | Invoke : Action
  | Resume : Action
  | run : Action
  deriving DecidableEq, Repr

/-- The call `jump_fcontext(target, data)` made by the resumer, one step of it. -/
def jumpIn (target : Option fcontext_t) (data : Bool) (m : Machine) : Config :=
  let m := m.log (.jump_fcontext target data)
  match target with
  | none => { m := m, ctl := .stopped .undefined }
  | some .parkedResumer => { m := m, ctl := .stopped .undefined }
  | some c => { m := m, ctl := .landing c { fctx := some .parkedResumer, data := data } }

/-- The call `jump_fcontext(target, data)` made on the coroutine stack, one step of it. -/
def jumpOut (self : fcontext_t) (target : Option fcontext_t) (data : Bool) (m : Machine) :
    Config :=
  let m := m.log (.jump_fcontext target data)
  match target with
  | some .parkedResumer =>
    { m := m, ctl := .landing .parkedResumer { fctx := some self, data := data } }
  | _ => { m := m, ctl := .stopped .undefined }

/-- One step: the code of one source function between two transfers. An
action that does not apply leaves the configuration as it is. -/
def step (a : Action) (c : Config) : Config :=
  match a, c.ctl with
  | .Invoke, .spawned =>
    match Invoke_entry c.m with
    | .returned _ m => { m := m, ctl := .outside }
    | .jumped target data m => jumpIn target data m
  | .Resume, .spawned =>
    match Resume_entry c.m with
    | .returned _ m => { m := m, ctl := .spawned }
    | .jumped target data m => jumpIn target data m
  | .Resume, .outside =>
    match Resume_entry c.m with
    | .returned _ m => { m := m, ctl := .outside }
    | .jumped target data m => jumpIn target data m
  | .run, .landing (.entry _ _) t =>
    if t.data then
      match Handle_entry t c.m with
      | (some h, m) => { m := m.log (.h m.y.s_), ctl := .body h }
      | (none, m) => { m := m, ctl := .body .done }
    else
      { m := c.m, ctl := .stopped .exit }
  | .run, .landing (.parkedSuspend onTrue onFalse) t =>
    match Suspend_resumed t c.m with
    | (true, m) => { m := m.log (.SuspendReturn true m.y.s_), ctl := .body onTrue }
    | (false, m) => { m := m.log (.SuspendReturn false m.y.s_), ctl := .body onFalse }
  | .run, .landing .parkedHandle _ =>
    match Handle_resumed c.m with
    | (f, m) => { m := m, ctl := .stopped f }
  | .run, .landing .parkedResumer t =>
    match SwitchTransfer t c.m with
    | (.ok _, m) => { m := m, ctl := .outside }
    | (.error f, m) => { m := m, ctl := .stopped f }
  | .run, .body .done =>
    match Handle_tail c.m with
    | .jumped target data m => jumpOut .parkedHandle target data m
    | .returned _ m =>
      match Handle_resumed m with
      | (f, m) => { m := m, ctl := .stopped f }
  | .run, .body (.suspend onTrue onFalse) =>
    match Suspend c.m with
    | .jumped target data m => jumpOut (.parkedSuspend onTrue onFalse) target data m
    | .returned true m => { m := m.log (.SuspendReturn true m.y.s_), ctl := .body onTrue }
    | .returned false m => { m := m.log (.SuspendReturn false m.y.s_), ctl := .body onFalse }
  | _, _ => c

/-- The configurations the machine reaches from a coroutine just constructed. -/
inductive Reachable (env : Env) : Config → Prop where
  | ctor (allocator strand : Option Nat) (spawn : Option SpawnHander) (stack_size : Int)
      (w : World) :
      Reachable env { m := YieldContext.ctor env allocator strand spawn stack_size w,
                      ctl := .spawned }
  | step (a : Action) (c : Config) : Reachable env c → Reachable env (step a c)

/-! ## Vocabulary of the properties -/

/-- The machine a `Call` leaves behind. -/
def Call.machine {α : Type} : Call α → Machine
  | .returned _ m => m
  | .jumped _ _ m => m

/-- The edges of the cycle RESUMED -> SUSPENDING -> SUSPEND -> RESUMING -> RESUMED. -/
def CycleEdge (a b : Int) : Prop :=
  (a = STATUS_RESUMED ∧ b = STATUS_SUSPENDING) ∨ (a = STATUS_SUSPENDING ∧ b = STATUS_SUSPEND) ∨
  (a = STATUS_SUSPEND ∧ b = STATUS_RESUMING) ∨ (a = STATUS_RESUMING ∧ b = STATUS_RESUMED)

/-- The status `b` is the status `a` or its successor in the cycle. -/
def StatusStep (a b : Int) : Prop := b = a ∨ CycleEdge a b

/-- Number of calls of `Release` in a trace. -/
def releases (tr : List Event) : Nat := tr.count .Release

/-- Number of times the body was started in a trace. -/
def bodyCalls : List Event → Nat
  | [] => 0
  | .h _ :: tr => bodyCalls tr + 1
  | _ :: tr => bodyCalls tr

/-- The results of the calls of `Suspend` that returned to the body, in order. -/
def suspendResults : List Event → List Bool
  | [] => []
  | .SuspendReturn r _ :: tr => r :: suspendResults tr
  | _ :: tr => suspendResults tr

/-- The status word at each moment the body got control: when it was started
and whenever a `Suspend` returned to it. -/
def bodyStatuses : List Event → List Int
  | [] => []
  | .h s :: tr => s :: bodyStatuses tr
  | .SuspendReturn _ s :: tr => s :: bodyStatuses tr
  | _ :: tr => bodyStatuses tr

/-- Number of context transfers in a trace. -/
def transfers : List Event → Nat
  | [] => 0
  | .jump_fcontext _ _ :: tr => transfers tr + 1
  | _ :: tr => transfers tr

/-- Number of context transfers in a trace that carry a null payload. -/
def nullTransfers : List Event → Nat
  | [] => 0
  | .jump_fcontext _ false :: tr => nullTransfers tr + 1
  | _ :: tr => nullTransfers tr

/-- The last two events of a run in which the body returns: the final `Jump` of
`Handle` into the parked resumer with a null payload, then `Release`. -/
def completionEvents : List Event :=
  [.jump_fcontext (some .parkedResumer) false, .Release]

/-- Number of execution contexts created in a trace. -/
def contextsMade : List Event → Nat
  | [] => 0
  | .make_fcontext _ _ :: tr => contextsMade tr + 1
  | _ :: tr => contextsMade tr

/-- Number of calls of `Suspend` the body makes when each of them returns true. -/
def suspends : SpawnHander → Nat
  | .done => 0
  | .suspend onTrue _ => suspends onTrue + 1

/-- The body calls `Suspend` exactly `N` times and then returns. -/
def CallsSuspend (N : Nat) (b : SpawnHander) : Prop := suspends b = N

/-- A number of calls of `Resume`, each made after the previous one returned:
their outcomes and the machine afterwards. -/
def Resumes : Nat → Machine → List (Except Fault Bool) × Machine
  | 0, m => ([], m)
  | n + 1, m =>
    match Resume m with
    | (r, m) =>
      match Resumes n m with
      | (rs, m) => (r :: rs, m)

/-- Which slots are empty at each place control can be: the invariant that
`step` preserves. -/
def SlotsEmptyAt (c : Config) : Prop :=
  match c.ctl with
  | .spawned => c.m.y.caller_ = none ∧ c.m.y.callee_ = none
  | .outside => c.m.y.caller_ = none
  | .body _ => c.m.y.callee_ = none
  | .landing _ _ => c.m.y.caller_ = none ∧ c.m.y.callee_ = none
  | .stopped _ => c.m.y.caller_ = none ∨ c.m.y.callee_ = none

/-- The configuration of a coroutine just constructed by `Spawn`, whose `Invoke`
job is posted and has not run. -/
def spawnedConfig (env : Env) (allocator strand : Option Nat) (spawn : Option SpawnHander)
    (stack_size : Int) (w : World) : Config :=
  { m := YieldContext.ctor env allocator strand spawn stack_size w, ctl := .spawned }

/-- The configuration in which the coroutine side leaves the machine. -/
def Back.config : Back × Machine → Config
  | (.transfer t, m) => { m := m, ctl := .landing .parkedResumer t }
  | (.halt f, m) => { m := m, ctl := .stopped f }

/-- Where control is once `Resume` or `Invoke` is over. -/
def outcomeControl {α : Type} : Except Fault α → Control
  | .ok _ => .outside
  | .error f => .stopped f

/-- The jobs that were appended to the two queues between `w` and `w'`. -/
def posted (w w' : World) : List Job :=
  w'.strand_queue.drop w.strand_queue.length ++ w'.context_queue.drop w.context_queue.length

/-- The contents of the strand queue and of the event loop queue. -/
def queues (m : Machine) : List Job × List Job := (m.w.strand_queue, m.w.context_queue)

/-- The configurations reached from `c0` by any sequence of steps. -/
inductive Steps (c0 : Config) : Config → Prop where
  | refl : Steps c0 c0
  | step (a : Action) (c : Config) : Steps c0 c → Steps c0 (step a c)

/-- The number of bodies the coroutine holds: 1 while `h_` is set, 0 once it is cleared. -/
def bodyHeld (m : Machine) : Nat := if m.y.h_.isSome then 1 else 0

/-- The jobs waiting in the queue the coroutine posts to: its strand when it
has one, the event loop otherwise. -/
def pending (m : Machine) : List Job :=
  match m.y.strand_ with
  | some _ => m.w.strand_queue
  | none => m.w.context_queue

/-- Modelled from the spec: the event loop and its strand are outside the
source file; a posted job "runs later", so the queue the coroutine posts to
takes its oldest job out to run it. -/
def takeJob (m : Machine) : Option (Job × Machine) :=
  match m.y.strand_ with
  | some _ =>
    match m.w.strand_queue with
    | [] => none
    | j :: js => some (j, { m with w := { m.w with strand_queue := js } })
  | none =>
    match m.w.context_queue with
    | [] => none
    | j :: js => some (j, { m with w := { m.w with context_queue := js } })

/-- What a job does when the queue runs it: the closure of `Spawn` calls
`Invoke` (lines 214-217), the closure of `R` is `R_invoked`. -/
def runJob (env : Env) : Job → Machine → Except Fault Unit × Machine
  | .Invoke, m => Invoke m
  | .R, m => R_invoked env m

/-- The queue runs `k` jobs one after the other: the machine afterwards, or
`none` when the queue ran empty or a job did not return. -/
def runJobs (env : Env) : Nat → Machine → Option Machine
  | 0, m => some m
  | k + 1, m =>
    match takeJob m with
    | none => none
    | some (j, m) =>
      match runJob env j m with
      | (.ok _, m) => runJobs env k m
      | (.error _, _) => none

/-- The outcomes of the calls of `Resume` made by the request-resume jobs among
the first `k` jobs that the queue runs. -/
def resumeAttempts (env : Env) : Nat → Machine → List (Except Fault Bool)
  | 0, _ => []
  | k + 1, m =>
    match takeJob m with
    | none => []
    | some (.R, m) => (Resume m).1 :: resumeAttempts env k (R_invoked env m).2
    | some (.Invoke, m) => resumeAttempts env k (Invoke m).2

/-! ## Example inputs -/

def emptyWorld : World := { trace := [], strand_queue := [], context_queue := [] }

/-- A coroutine whose body is running: status RESUMED, the resumer parked. -/
def runningExample : Machine :=
  { y := { s_ := STATUS_RESUMED, callee_ := none, caller_ := some .parkedResumer,
           h_ := none, strand_ := none, stack_ := some { ptr := 4096, pooled := true },
           stack_size_ := 65536, allocator_ := some 1 },
    w := emptyWorld }

/-- A coroutine parked in its only `Suspend`: status SUSPEND, its context in `callee_`. -/
def parkedExample : Machine :=
  { y := { s_ := STATUS_SUSPEND, callee_ := some (.parkedSuspend .done .done), caller_ := none,
           h_ := none, strand_ := none, stack_ := some { ptr := 4096, pooled := true },
           stack_size_ := 65536, allocator_ := some 1 },
    w := emptyWorld }

/-- A coroutine that announced a suspension: status SUSPENDING, both slots empty. -/
def suspendingExample : Machine :=
  { y := { s_ := STATUS_SUSPENDING, callee_ := none, caller_ := none,
           h_ := none, strand_ := none, stack_ := some { ptr := 4096, pooled := true },
           stack_size_ := 65536, allocator_ := some 1 },
    w := emptyWorld }

/-- The transfer a coroutine makes when it yields from its last `Suspend`. -/
def yieldedTransfer : transfer_t := { fctx := some (.parkedSuspend .done .done), data := true }

/-- Collaborators with pages of 4096 bytes, a pool and a heap that both deliver. -/
def plainEnv : Env :=
  { GetMemoryPageSize := 4096, Alloc := fun _ => some 1048576,
    make_shared_alloc := fun _ => some 2097152, New := true, Post := true }

/-- Collaborators from which no stack can be had: the pool and the heap both fail. -/
def noStackEnv : Env :=
  { GetMemoryPageSize := 4096, Alloc := fun _ => none,
    make_shared_alloc := fun _ => none, New := true, Post := true }

/-- A coroutine for which no stack could be had, before its `Invoke` job runs. -/
def stacklessExample : Machine :=
  { y := { s_ := STATUS_RESUMED, callee_ := none, caller_ := none,
           h_ := some (.suspend .done .done), strand_ := none, stack_ := none,
           stack_size_ := 65536, allocator_ := some 1 },
    w := { trace := [.Alloc 65536, .make_shared_alloc 65536], strand_queue := [],
           context_queue := [] } }

/-- A coroutine whose body has returned and which `Release` has destroyed. -/
def finishedExample : Machine :=
  { y := { s_ := STATUS_RESUMED, callee_ := none, caller_ := none,
           h_ := none, strand_ := none, stack_ := none,
           stack_size_ := 0, allocator_ := none },
    w := emptyWorld }

/-- A body that calls `Suspend` twice and returns. -/
def twoSuspends : SpawnHander := .suspend (.suspend .done .done) .done

end ppp.coroutines

/-! # Properties -/

namespace ppp.coroutines

/-! ## Resume and Suspend from the wrong state -/

theorem Resume_entry_fails (m : Machine) (hs : m.y.s_ ≠ STATUS_SUSPEND) :
    Resume_entry m = .returned false m := by
  simp [Resume_entry, compare_exchange_strong, hs]

theorem Resume_fails (m : Machine) (hs : m.y.s_ ≠ STATUS_SUSPEND) :
    Resume m = (.ok false, m) := by
  simp [Resume, Resume_entry_fails m hs]

/-- C1: for every coroutine whose status is not SUSPEND, `Resume` returns false
and leaves the machine as it was: the status word, `caller_`, `callee_`, the
body, the stack, and the trace (so no context transfer and no `Release`). -/
theorem Resume_not_SUSPEND (m : Machine) (hs : m.y.s_ ≠ STATUS_SUSPEND) :
    (Resume m).1 = .ok false ∧ Resume_entry m = .returned false m ∧
    (Resume m).2.y.s_ = m.y.s_ ∧ (Resume m).2.y.caller_ = m.y.caller_ ∧
    (Resume m).2.y.callee_ = m.y.callee_ ∧ (Resume m).2.y.h_ = m.y.h_ ∧
    (Resume m).2.y.stack_ = m.y.stack_ ∧ (Resume m).2.w.trace = m.w.trace ∧
    (Resume m).2 = m := by
  have he := Resume_entry_fails m hs
  have hr := Resume_fails m hs
  simp [hr, he]

theorem Resume_not_SUSPEND_witness :
    runningExample.y.s_ ≠ STATUS_SUSPEND ∧ (Resume runningExample).1 = .ok false ∧
    (Resume runningExample).2 = runningExample :=
  ⟨by decide, (Resume_not_SUSPEND runningExample (by decide)).1,
    (Resume_not_SUSPEND runningExample (by decide)).2.2.2.2.2.2.2.2⟩

/-- C2: for every coroutine whose status is not RESUMED, `Suspend` returns false
at once: it is not parked in any transfer, `caller_` is neither taken nor
cleared, and the machine (status word, both slots, trace) is as it was; the
body goes on with the result false. -/
theorem Suspend_not_RESUMED (m : Machine) (hs : m.y.s_ ≠ STATUS_RESUMED) :
    Suspend m = .returned false m ∧
    (Suspend m).machine.y.s_ = m.y.s_ ∧ (Suspend m).machine.y.caller_ = m.y.caller_ ∧
    (Suspend m).machine.y.callee_ = m.y.callee_ ∧ (Suspend m).machine.w.trace = m.w.trace ∧
    (∀ onTrue onFalse, runBody (.suspend onTrue onFalse) m =
      runBody onFalse (m.log (.SuspendReturn false m.y.s_))) := by
  have he : Suspend m = .returned false m := by
    simp [Suspend, compare_exchange_strong, hs]
  refine ⟨he, by simp [he, Call.machine], by simp [he, Call.machine],
    by simp [he, Call.machine], by simp [he, Call.machine], ?_⟩
  intro onTrue onFalse
  simp [runBody, he]

theorem Suspend_not_RESUMED_witness :
    suspendingExample.y.s_ ≠ STATUS_RESUMED ∧
    Suspend suspendingExample = .returned false suspendingExample :=
  ⟨by decide, (Suspend_not_RESUMED suspendingExample (by decide)).1⟩

/-! ## The status cycle -/

theorem log_y (m : Machine) (e : Event) : (m.log e).y = m.y := rfl

theorem Release_s (m : Machine) : (Release m).y.s_ = m.y.s_ := rfl

theorem jumpIn_y (target : Option fcontext_t) (data : Bool) (m : Machine) :
    (jumpIn target data m).m.y = m.y := by
  unfold jumpIn
  rcases target with _ | c
  · rfl
  · cases c <;> rfl

theorem jumpOut_y (self : fcontext_t) (target : Option fcontext_t) (data : Bool) (m : Machine) :
    (jumpOut self target data m).m.y = m.y := by
  unfold jumpOut
  rcases target with _ | c
  · rfl
  · cases c <;> rfl

theorem StatusStep_refl (a : Int) : StatusStep a a := Or.inl rfl

theorem Suspend_status (m : Machine) : StatusStep m.y.s_ (Suspend m).machine.y.s_ := by
  unfold Suspend compare_exchange_strong
  split_ifs with h
  · exact Or.inr (Or.inl ⟨h, rfl⟩)
  · exact Or.inl rfl

theorem Suspend_resumed_status (t : transfer_t) (m : Machine) :
    StatusStep m.y.s_ (Suspend_resumed t m).2.y.s_ := by
  unfold Suspend_resumed compare_exchange_strong
  by_cases h : m.y.s_ = STATUS_RESUMING
  · simp only [h, if_true]
    exact Or.inr (Or.inr (Or.inr (Or.inr ⟨rfl, rfl⟩)))
  · simp only [h, if_false]
    exact Or.inl rfl

theorem Resume_entry_status (m : Machine) :
    StatusStep m.y.s_ (Resume_entry m).machine.y.s_ := by
  unfold Resume_entry compare_exchange_strong
  split_ifs with h
  · exact Or.inr (Or.inr (Or.inr (Or.inl ⟨h, rfl⟩)))
  · exact Or.inl rfl

theorem Switch_status (m : Machine) : StatusStep m.y.s_ (Switch m).2.y.s_ := by
  unfold Switch compare_exchange_strong
  split_ifs with h
  · exact Or.inr (Or.inr (Or.inl ⟨h, rfl⟩))
  · exact Or.inl rfl

theorem SwitchTransfer_status (t : transfer_t) (m : Machine) :
    StatusStep m.y.s_ (SwitchTransfer t m).2.y.s_ := by
  unfold SwitchTransfer
  split_ifs with h
  · exact Switch_status { m with y := { m.y with callee_ := t.fctx } }
  · exact Or.inl rfl

theorem Invoke_entry_status (m : Machine) :
    (Invoke_entry m).machine.y.s_ = m.y.s_ := by
  unfold Invoke_entry
  split <;> rfl

theorem Handle_tail_status (m : Machine) : (Handle_tail m).machine.y.s_ = m.y.s_ := by
  unfold Handle_tail Jump
  split <;> rfl

theorem Handle_resumed_status (m : Machine) : (Handle_resumed m).2.y.s_ = m.y.s_ := by
  unfold Handle_resumed
  split <;> rfl

theorem step_status (a : Action) (c : Config) : StatusStep c.m.y.s_ (step a c).m.y.s_ := by
  obtain ⟨m, ctl⟩ := c
  cases a
  · -- Invoke
    cases ctl <;> try exact Or.inl rfl
    have h := Invoke_entry_status m
    simp only [step]
    cases hc : Invoke_entry m <;> rw [hc] at h <;> simp only [Call.machine] at h
    · exact Or.inl h
    · simp only [jumpIn_y]; exact Or.inl h
  · -- Resume
    have h := Resume_entry_status m
    cases ctl <;> try exact Or.inl rfl
    all_goals
      simp only [step]
      cases hc : Resume_entry m <;> rw [hc] at h <;> simp only [Call.machine] at h
      · exact h
      · simp only [jumpIn_y]; exact h
  · -- run
    cases ctl with
    | spawned => exact Or.inl rfl
    | outside => exact Or.inl rfl
    | stopped f => exact Or.inl rfl
    | body rest =>
      cases rest with
      | done =>
        have h := Handle_tail_status m
        simp only [step]
        cases hc : Handle_tail m with
        | jumped target data m1 =>
          rw [hc] at h
          simp only [Call.machine] at h
          simp only [jumpOut_y]; exact Or.inl h
        | returned r m1 =>
          rw [hc] at h
          simp only [Call.machine] at h
          have h2 := Handle_resumed_status m1
          exact Or.inl (h2.trans h)
      | suspend onTrue onFalse =>
        have h := Suspend_status m
        simp only [step]
        cases hc : Suspend m with
        | jumped target data m1 =>
          rw [hc] at h
          simp only [Call.machine] at h
          simp only [jumpOut_y]; exact h
        | returned r m1 =>
          rw [hc] at h
          simp only [Call.machine] at h
          cases r <;> exact h
    | landing target t =>
      cases target with
      | entry sp size =>
        simp only [step, Handle_entry]
        split_ifs
        · cases m.y.h_ <;> exact Or.inl rfl
        · exact Or.inl rfl
      | parkedSuspend onTrue onFalse =>
        have h := Suspend_resumed_status t m
        simp only [step]
        rcases hc : Suspend_resumed t m with ⟨r, m1⟩
        rw [hc] at h
        cases r <;> exact h
      | parkedHandle =>
        have h := Handle_resumed_status m
        simp only [step]
        exact Or.inl h
      | parkedResumer =>
        have h := SwitchTransfer_status t m
        simp only [step]
        rcases hc : SwitchTransfer t m with ⟨r, m1⟩
        rw [hc] at h
        cases r <;> exact h

theorem ctor_fields (env : Env) (allocator strand : Option Nat) (spawn : Option SpawnHander)
    (stack_size : Int) (w : World) :
    (YieldContext.ctor env allocator strand spawn stack_size w).y.s_ = STATUS_RESUMED ∧
    (YieldContext.ctor env allocator strand spawn stack_size w).y.callee_ = none ∧
    (YieldContext.ctor env allocator strand spawn stack_size w).y.caller_ = none ∧
    (YieldContext.ctor env allocator strand spawn stack_size w).y.h_ = spawn ∧
    (YieldContext.ctor env allocator strand spawn stack_size w).y.stack_size_ = stack_size ∧
    (YieldContext.ctor env allocator strand spawn stack_size w).y.strand_ = strand ∧
    (YieldContext.ctor env allocator strand spawn stack_size w).y.allocator_ = allocator := by
  unfold YieldContext.ctor
  cases allocator <;> cases h1 : env.Alloc stack_size <;>
    cases h2 : env.make_shared_alloc stack_size <;>
    simp [Machine.log, h1, h2, STATUS_RESUMED]

theorem Spawn_built (env : Env) (allocator strand : Option Nat) (spawn : Option SpawnHander)
    (stack_size : Int) (w : World) :
    (Spawn env allocator strand spawn stack_size w).2.1 = none ∨
    (Spawn env allocator strand spawn stack_size w).2.1 =
      some (YieldContext.ctor env allocator strand spawn
        (max stack_size env.GetMemoryPageSize) w).y := by
  unfold Spawn
  cases spawn with
  | none => exact Or.inl rfl
  | some h =>
    by_cases hn : env.New = true
    · right
      cases strand <;> simp [hn]
    · left
      simp [hn]

/-- C3: the status word starts at RESUMED, and every piece of code of the engine
(`Suspend` up to its transfer and after it, `Resume` up to its transfer, the
confirmation `Switch` after the transfer, `Invoke`, `Handle`, `Spawn`, `R`, and
every step of the machine made of them) leaves the status as it was or moves it
to its successor in the cycle RESUMED -> SUSPENDING -> SUSPEND -> RESUMING ->
RESUMED. -/
theorem status_cycle :
    (∀ env allocator strand spawn stack_size w,
      (YieldContext.ctor env allocator strand spawn stack_size w).y.s_ = STATUS_RESUMED) ∧
    (∀ env allocator strand spawn stack_size w,
      (Spawn env allocator strand spawn stack_size w).2.1 = none ∨
      ((Spawn env allocator strand spawn stack_size w).2.1.map fun y => y.s_) =
        some STATUS_RESUMED) ∧
    (∀ m, StatusStep m.y.s_ (Suspend m).machine.y.s_) ∧
    (∀ t m, StatusStep m.y.s_ (Suspend_resumed t m).2.y.s_) ∧
    (∀ m, StatusStep m.y.s_ (Resume_entry m).machine.y.s_) ∧
    (∀ m, StatusStep m.y.s_ (Switch m).2.y.s_) ∧
    (∀ t m, StatusStep m.y.s_ (SwitchTransfer t m).2.y.s_) ∧
    (∀ t m, StatusStep m.y.s_ (Resume_resumed t m).2.y.s_) ∧
    (∀ t m, StatusStep m.y.s_ (Invoke_resumed t m).2.y.s_) ∧
    (∀ m, (Invoke_entry m).machine.y.s_ = m.y.s_) ∧
    (∀ t m, (Handle_entry t m).2.y.s_ = m.y.s_) ∧
    (∀ m, (Handle_tail m).machine.y.s_ = m.y.s_) ∧
    (∀ m, (Handle_resumed m).2.y.s_ = m.y.s_) ∧
    (∀ env m, (R env m).2.y.s_ = m.y.s_) ∧
    (∀ a c, StatusStep c.m.y.s_ (step a c).m.y.s_) := by
  refine ⟨fun env allocator strand spawn stack_size w =>
      (ctor_fields env allocator strand spawn stack_size w).1, ?_, Suspend_status,
    Suspend_resumed_status, Resume_entry_status, Switch_status, SwitchTransfer_status,
    fun t m => SwitchTransfer_status t m, fun t m => SwitchTransfer_status t m,
    Invoke_entry_status, fun _ _ => rfl, Handle_tail_status, Handle_resumed_status, ?_,
    step_status⟩
  · intro env allocator strand spawn stack_size w
    rcases Spawn_built env allocator strand spawn stack_size w with h | h
    · exact Or.inl h
    · right
      rw [h]
      simp [(ctor_fields env allocator strand spawn _ w).1]
  · intro env m
    unfold R Executors.Post
    split_ifs
    · cases m.y.strand_ <;> rfl
    · rfl

/-! ## Spawn: stack size and construction without a stack -/

/-- C5: for every requested stack size `r` and page size `p`, the coroutine
that `Spawn` builds for a non-null body is the one constructed with
`stack_size = max r p`: it is `p` when `r < p`, never less than `p`, and `r`
itself when `p ≤ r`. -/
theorem Spawn_stack_size (env : Env) (allocator strand : Option Nat) (h : SpawnHander)
    (r : Int) (w : World) (y : YieldContext)
    (hy : (Spawn env allocator strand (some h) r w).2.1 = some y) :
    y = (YieldContext.ctor env allocator strand (some h) (max r env.GetMemoryPageSize) w).y ∧
    y.stack_size_ = max r env.GetMemoryPageSize ∧
    (r < env.GetMemoryPageSize → y.stack_size_ = env.GetMemoryPageSize) ∧
    env.GetMemoryPageSize ≤ y.stack_size_ ∧
    (env.GetMemoryPageSize ≤ r → y.stack_size_ = r) := by
  have hb := Spawn_built env allocator strand (some h) r w
  rw [hy] at hb
  rcases hb with hb | hb
  · cases hb
  · have hyeq := Option.some.inj hb
    have hsz : y.stack_size_ = max r env.GetMemoryPageSize := by
      rw [hyeq]
      exact (ctor_fields env allocator strand (some h) _ w).2.2.2.2.1
    refine ⟨hyeq, hsz, ?_, ?_, ?_⟩
    · intro hlt
      rw [hsz]
      exact max_eq_right (le_of_lt hlt)
    · rw [hsz]
      exact le_max_right _ _
    · intro hle
      rw [hsz]
      exact max_eq_left hle

theorem Spawn_stack_size_witness :
    (Spawn plainEnv none none (some twoSuspends) (-7) emptyWorld).2.1 =
      some (YieldContext.ctor plainEnv none none (some twoSuspends) 4096 emptyWorld).y ∧
    (YieldContext.ctor plainEnv none none (some twoSuspends) 4096 emptyWorld).y.stack_size_ =
      max (-7) plainEnv.GetMemoryPageSize :=
  ⟨by decide, (Spawn_stack_size plainEnv none none twoSuspends (-7) emptyWorld _ (by decide)).2.1⟩

/-- C6, as the code has it: a coroutine for which neither the pool nor the heap
delivers a buffer is still constructed (holding no stack) and `Spawn` returns
true. -/
theorem Spawn_without_stack_returns_true :
    noStackEnv.Alloc (max 65536 noStackEnv.GetMemoryPageSize) = none ∧
    noStackEnv.make_shared_alloc (max 65536 noStackEnv.GetMemoryPageSize) = none ∧
    (Spawn noStackEnv (some 1) none (some twoSuspends) 65536 emptyWorld).1 = true ∧
    ((Spawn noStackEnv (some 1) none (some twoSuspends) 65536 emptyWorld).2.1.map
      fun y => y.stack_) = some none ∧
    (Spawn noStackEnv (some 1) none (some twoSuspends) 65536 emptyWorld).2.2.context_queue =
      [Job.Invoke] := by
  decide

/-- C6 amended: when neither the pool nor the heap delivers a buffer, `Spawn`
(given a body and the memory of the object) builds a coroutine that holds no
stack, posts exactly one `Invoke` job on the strand if there is one and on the
event loop otherwise, and returns true; when that job runs, `Invoke` calls
`Release` once, creates no execution context, makes no transfer and does not
start the body. `Spawn` returns false exactly when the body is null or the
memory of the object cannot be had. -/
theorem Spawn_without_stack (env : Env) (allocator strand : Option Nat) (h : SpawnHander)
    (r : Int) (w : World) (hnew : env.New = true)
    (hpool : env.Alloc (max r env.GetMemoryPageSize) = none)
    (hheap : env.make_shared_alloc (max r env.GetMemoryPageSize) = none) :
    (Spawn env allocator strand (some h) r w).1 = true ∧
    (∃ y tr, (Spawn env allocator strand (some h) r w).2.1 = some y ∧ y.stack_ = none ∧
      (Spawn env allocator strand (some h) r w).2.2.strand_queue =
        w.strand_queue ++ (if strand.isSome then [Job.Invoke] else []) ∧
      (Spawn env allocator strand (some h) r w).2.2.context_queue =
        w.context_queue ++ (if strand.isSome then [] else [Job.Invoke]) ∧
      Invoke { y := y, w := (Spawn env allocator strand (some h) r w).2.2 } =
        (.ok (), Release { y := y, w := (Spawn env allocator strand (some h) r w).2.2 }) ∧
      (Invoke { y := y, w := (Spawn env allocator strand (some h) r w).2.2 }).2.w.trace =
        w.trace ++ tr ∧
      releases tr = 1 ∧ contextsMade tr = 0 ∧ transfers tr = 0 ∧ bodyCalls tr = 0) ∧
    (∀ spawn, (Spawn env allocator strand spawn r w).1 = false ↔ spawn = none) := by
  have hinv : ∀ m : Machine, m.y.stack_ = none → Invoke m = (.ok (), Release m) := by
    intro m hm
    simp [Invoke, Invoke_entry, hm]
  obtain ⟨ev, hev, hm⟩ : ∃ ev : List Event,
      (releases (ev ++ [Event.Release]) = 1 ∧ contextsMade (ev ++ [Event.Release]) = 0 ∧
        transfers (ev ++ [Event.Release]) = 0 ∧ bodyCalls (ev ++ [Event.Release]) = 0) ∧
      YieldContext.ctor env allocator strand (some h) (max r env.GetMemoryPageSize) w =
        { y := { s_ := 0, callee_ := none, caller_ := none, h_ := some h, strand_ := strand,
                 stack_ := none, stack_size_ := max r env.GetMemoryPageSize,
                 allocator_ := allocator },
          w := { w with trace := w.trace ++ ev } } := by
    cases allocator with
    | none =>
      refine ⟨[.make_shared_alloc (max r env.GetMemoryPageSize)],
        by simp [releases, contextsMade, transfers, bodyCalls], ?_⟩
      simp [YieldContext.ctor, Machine.log, hheap]
    | some a =>
      refine ⟨[.Alloc (max r env.GetMemoryPageSize),
        .make_shared_alloc (max r env.GetMemoryPageSize)],
        by simp [releases, contextsMade, transfers, bodyCalls], ?_⟩
      simp [YieldContext.ctor, Machine.log, hpool, hheap]
  refine ⟨?_, ?_, ?_⟩
  · cases strand <;> simp [Spawn, hnew]
  · refine ⟨{ s_ := 0, callee_ := none, caller_ := none, h_ := some h, strand_ := strand,
              stack_ := none, stack_size_ := max r env.GetMemoryPageSize,
              allocator_ := allocator },
      ev ++ [Event.Release], ?_, ?_, ?_, ?_, hinv _ ?_, ?_, hev⟩
    · cases strand <;> simp only [Spawn, hnew, if_true, hm]
    · rfl
    · cases strand <;> simp [Spawn, hnew, hm]
    · cases strand <;> simp [Spawn, hnew, hm]
    · rfl
    · rw [hinv _ rfl]
      cases strand <;> simp [Spawn, hnew, hm, Release, Machine.log]
  · intro spawn
    cases spawn <;> cases strand <;> simp [Spawn, hnew]

theorem Spawn_without_stack_witness :
    noStackEnv.New = true ∧
    (Spawn noStackEnv (some 1) none (some twoSuspends) 65536 emptyWorld).1 = true :=
  ⟨rfl, (Spawn_without_stack noStackEnv (some 1) none twoSuspends 65536 emptyWorld rfl rfl rfl).1⟩

/-! ## The confirmation after a transfer -/

/-- C9: when the transfer made by `Resume` or `Invoke` comes back with a non-null
payload, the context received is stored in `callee_`; if the status is
SUSPENDING it becomes SUSPEND and the result is true; if the status is anything
else, `Switch()` takes its `runtime_error` path, `Resume` and `Invoke` end in an
error instead of returning, and the status word is as it was. -/
theorem Switch_after_yield (t : transfer_t) (m : Machine) (hd : t.data = true) :
    (SwitchTransfer t m).2.y.callee_ = t.fctx ∧
    (Resume_resumed t m).2.y.callee_ = t.fctx ∧
    (Invoke_resumed t m).2.y.callee_ = t.fctx ∧
    (m.y.s_ = STATUS_SUSPENDING →
      (SwitchTransfer t m).1 = .ok true ∧ (Resume_resumed t m).1 = .ok true ∧
      (Invoke_resumed t m).1 = .ok () ∧ (SwitchTransfer t m).2.y.s_ = STATUS_SUSPEND) ∧
    (m.y.s_ ≠ STATUS_SUSPENDING →
      (Switch { m with y := { m.y with callee_ := t.fctx } }).1 = .error .runtime_error ∧
      (∃ f, (SwitchTransfer t m).1 = .error f) ∧ (∃ f, (Resume_resumed t m).1 = .error f) ∧
      (∃ f, (Invoke_resumed t m).1 = .error f) ∧
      (SwitchTransfer t m).2.y.s_ = m.y.s_) := by
  have hc : (SwitchTransfer t m).2.y.callee_ = t.fctx := by
    by_cases hs : m.y.s_ = STATUS_SUSPENDING <;>
      simp [SwitchTransfer, hd, Switch, compare_exchange_strong, hs]
  refine ⟨hc, hc, hc, ?_, ?_⟩
  · intro hs
    simp [Resume_resumed, Invoke_resumed, SwitchTransfer, hd, Switch, compare_exchange_strong, hs,
      noexcept, Except.map]
  · intro hs
    simp [Resume_resumed, Invoke_resumed, SwitchTransfer, hd, Switch, compare_exchange_strong, hs,
      noexcept, Except.map]

theorem Switch_after_yield_witness :
    yieldedTransfer.data = true ∧
    (SwitchTransfer yieldedTransfer suspendingExample).2.y.callee_ = yieldedTransfer.fctx ∧
    (SwitchTransfer yieldedTransfer suspendingExample).1 = .ok true :=
  ⟨rfl, (Switch_after_yield yieldedTransfer suspendingExample rfl).1,
    ((Switch_after_yield yieldedTransfer suspendingExample rfl).2.2.2.1 rfl).1⟩

/-- C10, as the code has it: with a payload that is not null and a status that
is not SUSPENDING (here RESUMED), the confirmation inside `Resume` and inside
`Invoke` ends in `std::terminate`; nothing is returned to the caller. -/
theorem corruption_terminates_example :
    yieldedTransfer.data = true ∧ runningExample.y.s_ ≠ STATUS_SUSPENDING ∧
    (Resume_resumed yieldedTransfer runningExample).1 = .error .terminate ∧
    (Invoke_resumed yieldedTransfer runningExample).1 = .error .terminate ∧
    (Resume_resumed yieldedTransfer runningExample).1 ≠ .ok false := by
  refine ⟨rfl, by decide, rfl, rfl, ?_⟩
  rw [show (Resume_resumed yieldedTransfer runningExample).1 = .error .terminate from rfl]
  exact fun h => Except.noConfusion h

/-- C10 amended: when the confirmation CAS SUSPENDING -> SUSPEND fails inside
`Resume` or `Invoke`, `Switch()` throws `std::runtime_error`; the exception
meets the `noexcept` of `Switch(transfer_t, YieldContext*)`, so the outcome of
`Resume` and of `Invoke` is `std::terminate` and no value reaches their caller;
the status word is as it was and `callee_` holds the context received. -/
theorem corruption_terminates (t : transfer_t) (m : Machine) (hd : t.data = true)
    (hs : m.y.s_ ≠ STATUS_SUSPENDING) :
    (Switch { m with y := { m.y with callee_ := t.fctx } }).1 = .error .runtime_error ∧
    SwitchTransfer t m = (.error .terminate, { m with y := { m.y with callee_ := t.fctx } }) ∧
    Resume_resumed t m = (.error .terminate, { m with y := { m.y with callee_ := t.fctx } }) ∧
    Invoke_resumed t m = (.error .terminate, { m with y := { m.y with callee_ := t.fctx } }) := by
  simp [Resume_resumed, Invoke_resumed, SwitchTransfer, hd, Switch, compare_exchange_strong, hs,
    noexcept, Except.map]

theorem corruption_terminates_witness :
    yieldedTransfer.data = true ∧ runningExample.y.s_ ≠ STATUS_SUSPENDING ∧
    (Resume_resumed yieldedTransfer runningExample).1 = .error .terminate :=
  ⟨rfl, by decide,
    congrArg Prod.fst (corruption_terminates yieldedTransfer runningExample rfl (by decide)).2.2.1⟩

/-! ## The well-formed run -/

theorem Resume_parked_more (m : Machine) (kt kf kf0 : SpawnHander)
    (hs : m.y.s_ = STATUS_SUSPEND)
    (hc : m.y.callee_ = some (.parkedSuspend (.suspend kt kf) kf0))
    (hr : m.y.caller_ = none) :
    Resume m = (.ok true,
      { y := { m.y with callee_ := some (.parkedSuspend kt kf) },
        w := { m.w with trace := m.w.trace ++
          [.jump_fcontext (some (.parkedSuspend (.suspend kt kf) kf0)) true,
           .SuspendReturn true STATUS_RESUMED,
           .jump_fcontext (some .parkedResumer) true] } }) := by
  obtain ⟨⟨s, callee, caller, h, strand, stack, size, alloc⟩, w⟩ := m
  simp only at hs hc hr
  subst hs hc hr
  simp [Resume, Resume_entry, Invoke, Invoke_entry, Invoke_resumed, compare_exchange_strong, enter,
    Handle, Handle_entry, Handle_tail, Jump, Suspend_resumed, runBody, Suspend, leave,
    Resume_resumed, SwitchTransfer, Switch, noexcept, Machine.log, Release, Except.map,
    STATUS_RESUMED, STATUS_SUSPENDING, STATUS_SUSPEND, STATUS_RESUMING]

theorem Resume_parked_last (m : Machine) (kf0 : SpawnHander)
    (hs : m.y.s_ = STATUS_SUSPEND)
    (hc : m.y.callee_ = some (.parkedSuspend .done kf0))
    (hr : m.y.caller_ = none) :
    Resume m = (.ok true,
      { y := { m.y with s_ := STATUS_RESUMED, callee_ := none }.dtor,
        w := { m.w with trace := m.w.trace ++
          [.jump_fcontext (some (.parkedSuspend .done kf0)) true,
           .SuspendReturn true STATUS_RESUMED,
           .jump_fcontext (some .parkedResumer) false,
           .Release] } }) := by
  obtain ⟨⟨s, callee, caller, h, strand, stack, size, alloc⟩, w⟩ := m
  simp only at hs hc hr
  subst hs hc hr
  simp [Resume, Resume_entry, Invoke, Invoke_entry, Invoke_resumed, compare_exchange_strong, enter,
    Handle, Handle_entry, Handle_tail, Jump, Suspend_resumed, runBody, Suspend, leave,
    Resume_resumed, SwitchTransfer, Switch, noexcept, Machine.log, Release, Except.map,
    STATUS_RESUMED, STATUS_SUSPENDING, STATUS_SUSPEND, STATUS_RESUMING]

theorem Invoke_fresh_more (m : Machine) (kt kf : SpawnHander) (st : Stack)
    (hs : m.y.s_ = STATUS_RESUMED) (hc : m.y.callee_ = none) (hr : m.y.caller_ = none)
    (hh : m.y.h_ = some (.suspend kt kf)) (hst : m.y.stack_ = some st) :
    Invoke m = (.ok (),
      { y := { m.y with s_ := STATUS_SUSPEND, callee_ := some (.parkedSuspend kt kf), h_ := none },
        w := { m.w with trace := m.w.trace ++
          [.make_fcontext (st.ptr + m.y.stack_size_) m.y.stack_size_,
           .jump_fcontext (some (.entry (st.ptr + m.y.stack_size_) m.y.stack_size_)) true,
           .h STATUS_RESUMED,
           .jump_fcontext (some .parkedResumer) true] } }) := by
  obtain ⟨⟨s, callee, caller, h, strand, stack, size, alloc⟩, w⟩ := m
  simp only at hs hc hr hh hst
  subst hs hc hr hh hst
  simp [Resume, Resume_entry, Invoke, Invoke_entry, Invoke_resumed, compare_exchange_strong, enter,
    Handle, Handle_entry, Handle_tail, Jump, Suspend_resumed, runBody, Suspend, leave,
    Resume_resumed, SwitchTransfer, Switch, noexcept, Machine.log, Release, Except.map,
    STATUS_RESUMED, STATUS_SUSPENDING, STATUS_SUSPEND, STATUS_RESUMING]

theorem Invoke_fresh_last (m : Machine) (st : Stack)
    (hs : m.y.s_ = STATUS_RESUMED) (hc : m.y.callee_ = none) (hr : m.y.caller_ = none)
    (hh : m.y.h_ = some .done) (hst : m.y.stack_ = some st) :
    Invoke m = (.ok (),
      { y := { m.y with h_ := none }.dtor,
        w := { m.w with trace := m.w.trace ++
          [.make_fcontext (st.ptr + m.y.stack_size_) m.y.stack_size_,
           .jump_fcontext (some (.entry (st.ptr + m.y.stack_size_) m.y.stack_size_)) true,
           .h STATUS_RESUMED,
           .jump_fcontext (some .parkedResumer) false,
           .Release] } }) := by
  obtain ⟨⟨s, callee, caller, h, strand, stack, size, alloc⟩, w⟩ := m
  simp only at hs hc hr hh hst
  subst hs hc hr hh hst
  simp [Resume, Resume_entry, Invoke, Invoke_entry, Invoke_resumed, compare_exchange_strong, enter,
    Handle, Handle_entry, Handle_tail, Jump, Suspend_resumed, runBody, Suspend, leave,
    Resume_resumed, SwitchTransfer, Switch, noexcept, Machine.log, Release, Except.map,
    STATUS_RESUMED, STATUS_SUSPENDING, STATUS_SUSPEND, STATUS_RESUMING]

theorem bodyCalls_append (a b : List Event) : bodyCalls (a ++ b) = bodyCalls a + bodyCalls b := by
  induction a with
  | nil => simp [bodyCalls]
  | cons e a ih => cases e <;> simp [bodyCalls, ih, Nat.add_right_comm]

theorem suspendResults_append (a b : List Event) :
    suspendResults (a ++ b) = suspendResults a ++ suspendResults b := by
  induction a with
  | nil => simp [suspendResults]
  | cons e a ih => cases e <;> simp [suspendResults, ih]

theorem bodyStatuses_append (a b : List Event) :
    bodyStatuses (a ++ b) = bodyStatuses a ++ bodyStatuses b := by
  induction a with
  | nil => simp [bodyStatuses]
  | cons e a ih => cases e <;> simp [bodyStatuses, ih]

theorem releases_append (a b : List Event) : releases (a ++ b) = releases a + releases b := by
  simp [releases]

theorem nullTransfers_append (a b : List Event) :
    nullTransfers (a ++ b) = nullTransfers a + nullTransfers b := by
  induction a with
  | nil => simp [nullTransfers]
  | cons e a ih =>
    cases e with
    | jump_fcontext target data => cases data <;> simp [nullTransfers, ih, Nat.add_right_comm]
    | _ => simp [nullTransfers, ih]

theorem Resumes_fail (j : Nat) (m : Machine) (hs : m.y.s_ ≠ STATUS_SUSPEND) :
    Resumes j m = (List.replicate j (.ok false), m) := by
  induction j with
  | zero => rfl
  | succ j ih => simp [Resumes, Resume_fails m hs, ih, List.replicate_succ]

theorem Resumes_succ (k : Nat) (m : Machine) :
    Resumes (k + 1) m =
      ((Resume m).1 :: (Resumes k (Resume m).2).1, (Resumes k (Resume m).2).2) := rfl

/-- From a coroutine parked in a `Suspend`, with `suspends onTrue` further calls
of `Suspend` ahead: what `k` calls of `Resume` do, for `k` up to the one that
lets the body return. -/
theorem Resumes_parked (k : Nat) : ∀ (m : Machine) (onTrue onFalse : SpawnHander),
    m.y.s_ = STATUS_SUSPEND → m.y.callee_ = some (.parkedSuspend onTrue onFalse) →
    m.y.caller_ = none → k ≤ suspends onTrue + 1 →
    (Resumes k m).1 = List.replicate k (.ok true) ∧
    ∃ tr, (Resumes k m).2.w.trace =
        m.w.trace ++ tr ++ (if k = suspends onTrue + 1 then completionEvents else []) ∧
      bodyCalls tr = 0 ∧ suspendResults tr = List.replicate k true ∧
      (∀ s ∈ bodyStatuses tr, s = STATUS_RESUMED) ∧ releases tr = 0 ∧ nullTransfers tr = 0 ∧
      (k < suspends onTrue + 1 → (Resumes k m).2.y.s_ = STATUS_SUSPEND) ∧
      (k = suspends onTrue + 1 → (Resumes k m).2.y.s_ = STATUS_RESUMED) := by
  induction k with
  | zero =>
    intro m onTrue onFalse hs _ _ _
    refine ⟨rfl, [], ?_, rfl, rfl, ?_, rfl, rfl, fun _ => hs, ?_⟩
    · simp [Resumes]
    · simp [bodyStatuses]
    · intro h
      omega
  | succ k ih =>
    intro m onTrue onFalse hs hc hr hk
    rw [Resumes_succ]
    cases onTrue with
    | done =>
      have hk0 : k = 0 := by
        simp only [suspends] at hk
        omega
      subst hk0
      have hres := Resume_parked_last m onFalse hs hc hr
      have h1 : (Resume m).1 = .ok true := by rw [hres]
      have h2 : (Resume m).2.w.trace = m.w.trace ++
          [.jump_fcontext (some (.parkedSuspend .done onFalse)) true,
           .SuspendReturn true STATUS_RESUMED] ++ completionEvents := by
        rw [hres]
        simp [completionEvents]
      have h3 : (Resume m).2.y.s_ = STATUS_RESUMED := by rw [hres]; rfl
      refine ⟨by simp [Resumes, h1],
        [.jump_fcontext (some (.parkedSuspend .done onFalse)) true,
         .SuspendReturn true STATUS_RESUMED], ?_, rfl, rfl, ?_, rfl, rfl, ?_, ?_⟩
      · simp only [Resumes, h2, suspends, if_true]
      · simp [bodyStatuses]
      · intro h
        simp only [suspends] at h
        omega
      · intro _
        exact h3
    | suspend kt kf =>
      have hres := Resume_parked_more m kt kf onFalse hs hc hr
      have hk1 : k ≤ suspends kt + 1 := by
        simp only [suspends] at hk
        omega
      have h1 : (Resume m).1 = .ok true := by rw [hres]
      have h2 : (Resume m).2.w.trace = m.w.trace ++
          [.jump_fcontext (some (.parkedSuspend (.suspend kt kf) onFalse)) true,
           .SuspendReturn true STATUS_RESUMED,
           .jump_fcontext (some .parkedResumer) true] := by rw [hres]
      have hs1 : (Resume m).2.y.s_ = STATUS_SUSPEND := by rw [hres]; exact hs
      have hc1 : (Resume m).2.y.callee_ = some (.parkedSuspend kt kf) := by rw [hres]
      have hr1 : (Resume m).2.y.caller_ = none := by rw [hres]; exact hr
      obtain ⟨hrs, tr, htr, hb, hsr, hbs, hrel, hnull, hlt, heq⟩ :=
        ih (Resume m).2 kt kf hs1 hc1 hr1 hk1
      refine ⟨by simp only [h1, hrs, List.replicate_succ],
        [.jump_fcontext (some (.parkedSuspend (.suspend kt kf) onFalse)) true,
         .SuspendReturn true STATUS_RESUMED,
         .jump_fcontext (some .parkedResumer) true] ++ tr, ?_, ?_, ?_, ?_, ?_, ?_, ?_, ?_⟩
      · simp only [htr, h2, suspends, Nat.add_right_cancel_iff, List.append_assoc]
      · simp [bodyCalls_append, hb, bodyCalls]
      · simp [suspendResults_append, hsr, suspendResults, List.replicate_succ]
      · intro s hmem
        simp only [bodyStatuses_append, bodyStatuses, List.mem_append, List.mem_cons,
          List.mem_singleton, List.not_mem_nil, or_false] at hmem
        rcases hmem with h | h
        · exact h
        · exact hbs s h
      · rw [releases_append, hrel]
        simp [releases]
      · simp [nullTransfers_append, hnull, nullTransfers]
      · intro h
        simp only [suspends] at h
        exact hlt (by omega)
      · intro h
        simp only [suspends] at h
        exact heq (by omega)

/-- From a coroutine that has not run yet (status RESUMED, both slots empty, a
body, a stack): what `Invoke` and then `k` calls of `Resume` do, for `k` up to
the number of calls of `Suspend` that the body makes. -/
theorem run_fresh (m : Machine) (b : SpawnHander) (hs : m.y.s_ = STATUS_RESUMED)
    (hc : m.y.callee_ = none) (hr : m.y.caller_ = none) (hh : m.y.h_ = some b)
    (hst : m.y.stack_ ≠ none) :
    (Invoke m).1 = .ok () ∧
    ∀ k, k ≤ suspends b →
      (Resumes k (Invoke m).2).1 = List.replicate k (.ok true) ∧
      ∃ tr, (Resumes k (Invoke m).2).2.w.trace =
          m.w.trace ++ tr ++ (if k = suspends b then completionEvents else []) ∧
        bodyCalls tr = 1 ∧ suspendResults tr = List.replicate k true ∧
        (∀ s ∈ bodyStatuses tr, s = STATUS_RESUMED) ∧ releases tr = 0 ∧ nullTransfers tr = 0 ∧
        (k < suspends b → (Resumes k (Invoke m).2).2.y.s_ = STATUS_SUSPEND) ∧
        (k = suspends b → (Resumes k (Invoke m).2).2.y.s_ = STATUS_RESUMED) := by
  obtain ⟨st, hst⟩ := Option.ne_none_iff_exists'.mp hst
  cases b with
  | done =>
    have hres := Invoke_fresh_last m st hs hc hr hh hst
    have h2 : (Invoke m).2.w.trace = m.w.trace ++
        [.make_fcontext (st.ptr + m.y.stack_size_) m.y.stack_size_,
         .jump_fcontext (some (.entry (st.ptr + m.y.stack_size_) m.y.stack_size_)) true,
         .h STATUS_RESUMED] ++ completionEvents := by
      rw [hres]
      simp [completionEvents]
    have h3 : (Invoke m).2.y.s_ = STATUS_RESUMED := by rw [hres]; exact hs
    refine ⟨by rw [hres], ?_⟩
    intro k hk
    have hk0 : k = 0 := by
      simp only [suspends] at hk
      omega
    subst hk0
    refine ⟨rfl, [.make_fcontext (st.ptr + m.y.stack_size_) m.y.stack_size_,
         .jump_fcontext (some (.entry (st.ptr + m.y.stack_size_) m.y.stack_size_)) true,
         .h STATUS_RESUMED], ?_, rfl, rfl, ?_, rfl, rfl, ?_, ?_⟩
    · simp only [Resumes, h2, suspends, if_true]
    · simp [bodyStatuses]
    · intro h
      simp only [suspends] at h
      omega
    · intro _
      exact h3
  | suspend kt kf =>
    have hres := Invoke_fresh_more m kt kf st hs hc hr hh hst
    have h2 : (Invoke m).2.w.trace = m.w.trace ++
        [.make_fcontext (st.ptr + m.y.stack_size_) m.y.stack_size_,
         .jump_fcontext (some (.entry (st.ptr + m.y.stack_size_) m.y.stack_size_)) true,
         .h STATUS_RESUMED,
         .jump_fcontext (some .parkedResumer) true] := by rw [hres]
    have hs1 : (Invoke m).2.y.s_ = STATUS_SUSPEND := by rw [hres]
    have hc1 : (Invoke m).2.y.callee_ = some (.parkedSuspend kt kf) := by rw [hres]
    have hr1 : (Invoke m).2.y.caller_ = none := by rw [hres]; exact hr
    refine ⟨by rw [hres], ?_⟩
    intro k hk
    obtain ⟨hrs, tr, htr, hb, hsr, hbs, hrel, hnull, hlt, heq⟩ :=
      Resumes_parked k (Invoke m).2 kt kf hs1 hc1 hr1 hk
    refine ⟨hrs, [.make_fcontext (st.ptr + m.y.stack_size_) m.y.stack_size_,
         .jump_fcontext (some (.entry (st.ptr + m.y.stack_size_) m.y.stack_size_)) true,
         .h STATUS_RESUMED,
         .jump_fcontext (some .parkedResumer) true] ++ tr, ?_, ?_, ?_, ?_, ?_, ?_, hlt, heq⟩
    · simp only [htr, h2, suspends, List.append_assoc]
    · simp [bodyCalls_append, hb, bodyCalls]
    · simp [suspendResults_append, hsr, suspendResults]
    · intro s hmem
      simp only [bodyStatuses_append, bodyStatuses, List.mem_append, List.mem_cons,
        List.mem_singleton, List.not_mem_nil, or_false] at hmem
      rcases hmem with h | h
      · exact h
      · exact hbs s h
    · rw [releases_append, hrel]
      simp [releases]
    · simp [nullTransfers_append, hnull, nullTransfers]

/-- C4: for every `N` and every body that calls `Suspend` exactly `N` times and
then returns, run on a coroutine constructed with a stack: `Invoke` returns, and
after `Invoke` and `k ≤ N` calls of `Resume` every `Resume` has returned true,
the body has been started exactly once, `k` calls of `Suspend` have returned and
each returned true, the status was RESUMED every time the body got control,
`Release` has been called once if `k = N` and not at all if `k < N`, and the
status is SUSPEND if `k < N`. -/
theorem wellformed_run (env : Env) (allocator strand : Option Nat) (b : SpawnHander)
    (stack_size : Int) (w : World) (N : Nat) (hb : CallsSuspend N b)
    (hst : (YieldContext.ctor env allocator strand (some b) stack_size w).y.stack_ ≠ none) :
    (Invoke (YieldContext.ctor env allocator strand (some b) stack_size w)).1 = .ok () ∧
    ∀ k, k ≤ N →
      (Resumes k (Invoke (YieldContext.ctor env allocator strand (some b) stack_size w)).2).1 =
        List.replicate k (.ok true) ∧
      ∃ tr,
        (Resumes k (Invoke (YieldContext.ctor env allocator strand (some b) stack_size w)).2).2.w.trace
          = (YieldContext.ctor env allocator strand (some b) stack_size w).w.trace ++ tr ∧
        bodyCalls tr = 1 ∧ suspendResults tr = List.replicate k true ∧
        (∀ s ∈ bodyStatuses tr, s = STATUS_RESUMED) ∧
        releases tr = (if k = N then 1 else 0) ∧
        (k < N →
          (Resumes k (Invoke (YieldContext.ctor env allocator strand (some b) stack_size w)).2).2.y.s_
            = STATUS_SUSPEND) := by
  obtain ⟨hs, hc, hr, hh, _⟩ := ctor_fields env allocator strand (some b) stack_size w
  obtain ⟨hinv, hrun⟩ := run_fresh _ b hs hc hr hh hst
  unfold CallsSuspend at hb
  subst hb
  refine ⟨hinv, ?_⟩
  intro k hk
  obtain ⟨hrs, tr, htr, hbc, hsr, hbs, hrel, _, hlt, _⟩ := hrun k hk
  refine ⟨hrs, tr ++ (if k = suspends b then completionEvents else []), ?_, ?_, ?_, ?_, ?_, hlt⟩
  · rw [htr, List.append_assoc]
  · rw [bodyCalls_append, hbc]
    split_ifs <;> rfl
  · rw [suspendResults_append, hsr]
    split_ifs <;> simp [completionEvents, suspendResults]
  · intro s hmem
    rw [bodyStatuses_append, List.mem_append] at hmem
    rcases hmem with h | h
    · exact hbs s h
    · split_ifs at h <;> simp [completionEvents, bodyStatuses] at h
  · rw [releases_append, hrel]
    split_ifs <;> simp [completionEvents, releases]

theorem wellformed_run_witness :
    CallsSuspend 2 twoSuspends ∧
    (YieldContext.ctor plainEnv (some 1) none (some twoSuspends) 65536 emptyWorld).y.stack_ ≠ none ∧
    (Resumes 2 (Invoke (YieldContext.ctor plainEnv (some 1) none (some twoSuspends) 65536
      emptyWorld)).2).1 = List.replicate 2 (.ok true) :=
  ⟨rfl, by decide,
    ((wellformed_run plainEnv (some 1) none twoSuspends 65536 emptyWorld 2 rfl (by decide)).2 2
      (Nat.le_refl 2)).1⟩

/-- C7: on a coroutine constructed with a stack, once `Invoke` and as many
calls of `Resume` as the body makes calls of `Suspend` have run, the body has
returned: the trace ends with the transfer of `Handle` into the resumer with a
null payload followed by `Release`, no earlier transfer carried a null payload,
`Release` was not called before; and from then on any number of calls of
`Resume` all return false and leave the machine (status, slots, trace) as it is:
no transfer and no second `Release`. -/
theorem completion_releases_once (env : Env) (allocator strand : Option Nat) (b : SpawnHander)
    (stack_size : Int) (w : World)
    (hst : (YieldContext.ctor env allocator strand (some b) stack_size w).y.stack_ ≠ none) :
    (∃ tr,
      (Resumes (suspends b)
        (Invoke (YieldContext.ctor env allocator strand (some b) stack_size w)).2).2.w.trace =
        (YieldContext.ctor env allocator strand (some b) stack_size w).w.trace ++ tr ++
          [.jump_fcontext (some .parkedResumer) false, .Release] ∧
      releases tr = 0 ∧ nullTransfers tr = 0) ∧
    ∀ j,
      Resumes j (Resumes (suspends b)
        (Invoke (YieldContext.ctor env allocator strand (some b) stack_size w)).2).2 =
      (List.replicate j (.ok false), (Resumes (suspends b)
        (Invoke (YieldContext.ctor env allocator strand (some b) stack_size w)).2).2) := by
  obtain ⟨hs, hc, hr, hh, _⟩ := ctor_fields env allocator strand (some b) stack_size w
  obtain ⟨_, hrun⟩ := run_fresh _ b hs hc hr hh hst
  obtain ⟨_, tr, htr, _, _, _, hrel, hnull, _, heq⟩ := hrun (suspends b) (Nat.le_refl _)
  refine ⟨⟨tr, ?_, hrel, hnull⟩, ?_⟩
  · rw [htr, if_pos rfl]
    rfl
  · intro j
    apply Resumes_fail
    rw [heq rfl]
    decide

theorem completion_releases_once_witness :
    (YieldContext.ctor plainEnv (some 1) none (some twoSuspends) 65536 emptyWorld).y.stack_ ≠ none ∧
    Resumes 3 (Resumes (suspends twoSuspends)
      (Invoke (YieldContext.ctor plainEnv (some 1) none (some twoSuspends) 65536 emptyWorld)).2).2 =
    (List.replicate 3 (.ok false), (Resumes (suspends twoSuspends)
      (Invoke (YieldContext.ctor plainEnv (some 1) none (some twoSuspends) 65536 emptyWorld)).2).2) :=
  ⟨by decide,
    (completion_releases_once plainEnv (some 1) none twoSuspends 65536 emptyWorld (by decide)).2 3⟩

/-! ## The two context slots -/

theorem jumpIn_slots (target : Option fcontext_t) (data : Bool) (m : Machine)
    (h1 : m.y.caller_ = none) (h2 : m.y.callee_ = none) : SlotsEmptyAt (jumpIn target data m) := by
  unfold jumpIn
  rcases target with _ | c
  · exact Or.inl h1
  · cases c
    · exact ⟨h1, h2⟩
    · exact ⟨h1, h2⟩
    · exact ⟨h1, h2⟩
    · exact Or.inl h1

theorem jumpOut_slots (self : fcontext_t) (target : Option fcontext_t) (data : Bool) (m : Machine)
    (h1 : m.y.caller_ = none) (h2 : m.y.callee_ = none) :
    SlotsEmptyAt (jumpOut self target data m) := by
  unfold jumpOut
  rcases target with _ | c
  · exact Or.inl h1
  · cases c
    · exact Or.inl h1
    · exact Or.inl h1
    · exact Or.inl h1
    · exact ⟨h1, h2⟩

theorem step_slots (a : Action) (c : Config) (hc : SlotsEmptyAt c) : SlotsEmptyAt (step a c) := by
  obtain ⟨⟨⟨s, callee, caller, h, strand, stack, size, alloc⟩, w⟩, ctl⟩ := c
  cases a
  · -- Invoke
    cases ctl <;> try exact hc
    obtain ⟨h1, h2⟩ := hc
    simp only at h1 h2
    subst h1 h2
    simp only [step, Invoke_entry]
    cases stack with
    | none => exact rfl
    | some st => exact jumpIn_slots _ _ _ rfl rfl
  · -- Resume
    cases ctl <;> try exact hc
    · obtain ⟨h1, h2⟩ := hc
      simp only at h1 h2
      subst h1 h2
      simp only [step, Resume_entry, compare_exchange_strong]
      split_ifs
      · exact jumpIn_slots _ _ _ rfl rfl
      · exact ⟨rfl, rfl⟩
    · have h1 : caller = none := hc
      subst h1
      simp only [step, Resume_entry, compare_exchange_strong]
      split_ifs
      · exact jumpIn_slots _ _ _ rfl rfl
      · exact rfl
  · -- run
    cases ctl with
    | spawned => exact hc
    | outside => exact hc
    | stopped f => exact hc
    | body rest =>
      have h2 : callee = none := hc
      subst h2
      cases rest with
      | done =>
        simp only [step, Handle_tail, Jump]
        cases caller with
        | none => exact Or.inl rfl
        | some c => exact jumpOut_slots _ _ _ _ rfl rfl
      | suspend onTrue onFalse =>
        simp only [step, Suspend, compare_exchange_strong]
        split_ifs
        · exact jumpOut_slots _ _ _ _ rfl rfl
        · exact rfl
    | landing target t =>
      obtain ⟨h1, h2⟩ := hc
      simp only at h1 h2
      subst h1 h2
      cases target with
      | entry sp size =>
        simp only [step, Handle_entry]
        split_ifs
        · cases h <;> exact rfl
        · exact Or.inl rfl
      | parkedSuspend onTrue onFalse =>
        simp only [step, Suspend_resumed, compare_exchange_strong]
        split_ifs <;> exact rfl
      | parkedHandle =>
        simp only [step, Handle_resumed]
        exact Or.inl rfl
      | parkedResumer =>
        simp only [step, SwitchTransfer, Switch, compare_exchange_strong]
        split_ifs
        · exact rfl
        · exact Or.inl rfl
        · exact rfl

theorem Reachable_slots (env : Env) (c : Config) (hr : Reachable env c) : SlotsEmptyAt c := by
  induction hr with
  | ctor allocator strand spawn stack_size w =>
    obtain ⟨_, hc, hr, _⟩ := ctor_fields env allocator strand spawn stack_size w
    exact ⟨hr, hc⟩
  | step a c _ ih => exact step_slots a c ih

/-- C8: in every configuration reachable from a coroutine just constructed by
steps of `Invoke`, `Handle`, `Suspend`, `Resume` and `Switch`, at most one of
`caller_` and `callee_` is non-null; and while a transfer is in flight (the
jumping side has taken and cleared its slot, the landing side has not stored
the context it receives yet) both are null. -/
theorem slots_exclusive (env : Env) (c : Config) (hr : Reachable env c) :
    (c.m.y.caller_ = none ∨ c.m.y.callee_ = none) ∧
    (∀ target t, c.ctl = .landing target t → c.m.y.caller_ = none ∧ c.m.y.callee_ = none) := by
  have h := Reachable_slots env c hr
  obtain ⟨m, ctl⟩ := c
  cases ctl with
  | spawned => exact ⟨Or.inl h.1, fun _ _ hctl => by cases hctl⟩
  | outside => exact ⟨Or.inl h, fun _ _ hctl => by cases hctl⟩
  | body rest => exact ⟨Or.inr h, fun _ _ hctl => by cases hctl⟩
  | landing target t => exact ⟨Or.inl h.1, fun _ _ _ => h⟩
  | stopped f => exact ⟨h, fun _ _ hctl => by cases hctl⟩

theorem slots_exclusive_witness :
    Reachable plainEnv
      (step .run (step .run (step .Invoke
        (spawnedConfig plainEnv (some 1) none (some twoSuspends) 65536 emptyWorld)))) ∧
    ((step .run (step .run (step .Invoke
        (spawnedConfig plainEnv (some 1) none (some twoSuspends) 65536 emptyWorld)))).m.y.caller_
      = none ∨
     (step .run (step .run (step .Invoke
        (spawnedConfig plainEnv (some 1) none (some twoSuspends) 65536 emptyWorld)))).m.y.callee_
      = none) :=
  ⟨.step _ _ (.step _ _ (.step _ _ (.ctor _ _ _ _ _))),
    (slots_exclusive plainEnv _ (.step _ _ (.step _ _ (.step _ _ (.ctor (some 1) none
      (some twoSuspends) 65536 emptyWorld))))).1⟩

/-! ## The total functions run the steps of the machine -/

theorem jumpOut_eq_leave (self : fcontext_t) (target : Option fcontext_t) (data : Bool)
    (m : Machine) : jumpOut self target data m = Back.config (leave self target data m) := by
  unfold jumpOut leave
  rcases target with _ | c
  · rfl
  · cases c <;> rfl

theorem runBody_steps (b : SpawnHander) : ∀ m : Machine,
    ∃ n, (step .run)^[n] { m := m, ctl := .body b } = Back.config (runBody b m) := by
  induction b with
  | done =>
    intro m
    refine ⟨1, ?_⟩
    simp only [Function.iterate_succ, Function.iterate_zero, Function.comp_apply, id_eq, step,
      runBody]
    cases Handle_tail m with
    | jumped target data m1 => exact jumpOut_eq_leave _ _ _ _
    | returned r m1 => rfl
  | suspend onTrue onFalse ih1 ih2 =>
    intro m
    cases hc : Suspend m with
    | jumped target data m1 =>
      refine ⟨1, ?_⟩
      simp only [Function.iterate_succ, Function.iterate_zero, Function.comp_apply, id_eq, step,
        runBody, hc]
      exact jumpOut_eq_leave _ _ _ _
    | returned r m1 =>
      cases r with
      | true =>
        obtain ⟨n, hn⟩ := ih1 (m1.log (.SuspendReturn true m1.y.s_))
        refine ⟨n + 1, ?_⟩
        rw [Function.iterate_succ, Function.comp_apply]
        simp only [step, runBody, hc]
        exact hn
      | false =>
        obtain ⟨n, hn⟩ := ih2 (m1.log (.SuspendReturn false m1.y.s_))
        refine ⟨n + 1, ?_⟩
        rw [Function.iterate_succ, Function.comp_apply]
        simp only [step, runBody, hc]
        exact hn

theorem enter_steps (target : Option fcontext_t) (data : Bool) (m : Machine) :
    ∃ n, (step .run)^[n] (jumpIn target data m) = Back.config (enter target data m) := by
  rcases target with _ | c
  · exact ⟨0, rfl⟩
  · cases c with
    | parkedResumer => exact ⟨0, rfl⟩
    | parkedHandle => exact ⟨1, rfl⟩
    | entry sp size =>
      cases data with
      | false => exact ⟨1, rfl⟩
      | true =>
        cases hh : m.y.h_ with
        | none =>
          obtain ⟨n, hn⟩ := runBody_steps .done
            (Handle_entry { fctx := some .parkedResumer, data := true }
              (m.log (.jump_fcontext (some (.entry sp size)) true))).2
          refine ⟨n + 1, ?_⟩
          rw [Function.iterate_succ, Function.comp_apply]
          simp only [jumpIn, step, enter, Handle, Handle_entry, log_y, hh, if_true] at hn ⊢
          exact hn
        | some h =>
          obtain ⟨n, hn⟩ := runBody_steps h
            ((Handle_entry { fctx := some .parkedResumer, data := true }
              (m.log (.jump_fcontext (some (.entry sp size)) true))).2.log (.h m.y.s_))
          refine ⟨n + 1, ?_⟩
          rw [Function.iterate_succ, Function.comp_apply]
          simp only [jumpIn, step, enter, Handle, Handle_entry, log_y, hh, if_true] at hn ⊢
          exact hn
    | parkedSuspend onTrue onFalse =>
      rcases hc : Suspend_resumed { fctx := some .parkedResumer, data := data }
        (m.log (.jump_fcontext (some (.parkedSuspend onTrue onFalse)) data)) with ⟨r, m1⟩
      cases r with
      | true =>
        obtain ⟨n, hn⟩ := runBody_steps onTrue (m1.log (.SuspendReturn true m1.y.s_))
        refine ⟨n + 1, ?_⟩
        rw [Function.iterate_succ, Function.comp_apply]
        simp only [jumpIn, step, enter, hc]
        exact hn
      | false =>
        obtain ⟨n, hn⟩ := runBody_steps onFalse (m1.log (.SuspendReturn false m1.y.s_))
        refine ⟨n + 1, ?_⟩
        rw [Function.iterate_succ, Function.comp_apply]
        simp only [jumpIn, step, enter, hc]
        exact hn
theorem SwitchTransfer_control (t : transfer_t) (m : Machine) :
    outcomeControl (Resume_resumed t m).1 = outcomeControl (SwitchTransfer t m).1 ∧
    outcomeControl (Invoke_resumed t m).1 = outcomeControl (SwitchTransfer t m).1 := by
  by_cases hd : t.data = true <;> by_cases hs : m.y.s_ = STATUS_SUSPENDING <;>
    simp [Resume_resumed, Invoke_resumed, SwitchTransfer, Switch, compare_exchange_strong, hd, hs,
      noexcept, outcomeControl, Except.map]

theorem landing_resumer_step (t : transfer_t) (m : Machine) :
    step .run { m := m, ctl := .landing .parkedResumer t } =
      { m := (SwitchTransfer t m).2, ctl := outcomeControl (SwitchTransfer t m).1 } := by
  simp only [step]
  rcases SwitchTransfer t m with ⟨r, m1⟩
  cases r <;> rfl

theorem Resume_steps (m : Machine) :
    ∃ n, (step .run)^[n] (step .Resume { m := m, ctl := .outside }) =
      { m := (Resume m).2, ctl := outcomeControl (Resume m).1 } := by
  cases hc : Resume_entry m with
  | returned r m1 =>
    refine ⟨0, ?_⟩
    simp only [Function.iterate_zero, id_eq, step, Resume, hc]
    rfl
  | jumped target data m1 =>
    obtain ⟨n, hn⟩ := enter_steps target data m1
    rcases he : enter target data m1 with ⟨back, m2⟩
    rw [he] at hn
    cases back with
    | halt f =>
      refine ⟨n, ?_⟩
      simp only [step, Resume, hc, he]
      exact hn
    | transfer t =>
      have hR : Resume m = Resume_resumed t m2 := by simp only [Resume, hc, he]
      have hS : step .Resume { m := m, ctl := .outside } = jumpIn target data m1 := by
        simp only [step, hc]
      refine ⟨n + 1, ?_⟩
      rw [Function.iterate_succ_apply', hS, hn, hR]
      show step .run { m := m2, ctl := .landing .parkedResumer t } = _
      rw [landing_resumer_step, (SwitchTransfer_control t m2).1]
      rfl

theorem Invoke_steps (m : Machine) :
    ∃ n, (step .run)^[n] (step .Invoke { m := m, ctl := .spawned }) =
      { m := (Invoke m).2, ctl := outcomeControl (Invoke m).1 } := by
  cases hc : Invoke_entry m with
  | returned r m1 =>
    refine ⟨0, ?_⟩
    simp only [Function.iterate_zero, id_eq, step, Invoke, hc]
    rfl
  | jumped target data m1 =>
    obtain ⟨n, hn⟩ := enter_steps target data m1
    rcases he : enter target data m1 with ⟨back, m2⟩
    rw [he] at hn
    cases back with
    | halt f =>
      refine ⟨n, ?_⟩
      simp only [step, Invoke, hc, he]
      exact hn
    | transfer t =>
      have hR : Invoke m = Invoke_resumed t m2 := by simp only [Invoke, hc, he]
      have hS : step .Invoke { m := m, ctl := .spawned } = jumpIn target data m1 := by
        simp only [step, hc]
      refine ⟨n + 1, ?_⟩
      rw [Function.iterate_succ_apply', hS, hn, hR]
      show step .run { m := m2, ctl := .landing .parkedResumer t } = _
      rw [landing_resumer_step, (SwitchTransfer_control t m2).2]
      rfl

theorem Reachable_iterate (env : Env) (a : Action) (c : Config) (h : Reachable env c) (n : Nat) :
    Reachable env ((step a)^[n] c) := by
  induction n with
  | zero => exact h
  | succ n ih =>
    rw [Function.iterate_succ_apply']
    exact .step a _ ih

/-- The machine that `Resume` leaves behind is reached by steps. -/
theorem Resume_reachable (env : Env) (m : Machine)
    (h : Reachable env { m := m, ctl := .outside }) :
    Reachable env { m := (Resume m).2, ctl := outcomeControl (Resume m).1 } := by
  obtain ⟨n, hn⟩ := Resume_steps m
  rw [← hn]
  exact Reachable_iterate env _ _ (.step _ _ h) n

theorem Invoke_reachable (env : Env) (m : Machine)
    (h : Reachable env { m := m, ctl := .spawned }) :
    Reachable env { m := (Invoke m).2, ctl := outcomeControl (Invoke m).1 } := by
  obtain ⟨n, hn⟩ := Invoke_steps m
  rw [← hn]
  exact Reachable_iterate env _ _ (.step _ _ h) n

/-- Whatever the body, the machine that the posted `Invoke` leaves behind is
reached by steps from the coroutine constructed. -/
theorem Invoke_ctor_reachable (env : Env) (allocator strand : Option Nat)
    (spawn : Option SpawnHander) (stack_size : Int) (w : World) :
    Reachable env
      { m := (Invoke (YieldContext.ctor env allocator strand spawn stack_size w)).2,
        ctl := outcomeControl (Invoke (YieldContext.ctor env allocator strand spawn stack_size w)).1 } :=
  Invoke_reachable env _ (.ctor allocator strand spawn stack_size w)

/-! ## Spawn: null body, and the posted job -/

/-- C11: for every allocator, strand, stack size and surroundings, `Spawn` with
a null body returns false, constructs no coroutine, and leaves the surroundings
as they were: nothing is requested from an allocator (the trace is unchanged)
and nothing is appended to the strand queue or the event loop queue. -/
theorem Spawn_null_body (env : Env) (allocator strand : Option Nat) (stack_size : Int)
    (w : World) :
    Spawn env allocator strand none stack_size w = (false, none, w) ∧
    (Spawn env allocator strand none stack_size w).1 = false ∧
    (Spawn env allocator strand none stack_size w).2.1 = none ∧
    (Spawn env allocator strand none stack_size w).2.2.trace = w.trace ∧
    (Spawn env allocator strand none stack_size w).2.2.strand_queue = w.strand_queue ∧
    (Spawn env allocator strand none stack_size w).2.2.context_queue = w.context_queue ∧
    posted w (Spawn env allocator strand none stack_size w).2.2 = [] := by
  refine ⟨rfl, rfl, rfl, rfl, rfl, rfl, ?_⟩
  simp [Spawn, posted]

theorem ctor_world (env : Env) (allocator strand : Option Nat) (spawn : Option SpawnHander)
    (stack_size : Int) (w : World) :
    ∃ ev, (YieldContext.ctor env allocator strand spawn stack_size w).w =
        { w with trace := w.trace ++ ev } ∧
      bodyCalls ev = 0 ∧ transfers ev = 0 ∧ contextsMade ev = 0 ∧ releases ev = 0 := by
  unfold YieldContext.ctor
  cases allocator with
  | none =>
    refine ⟨[.make_shared_alloc stack_size], ?_,
      by simp [bodyCalls, transfers, contextsMade, releases]⟩
    cases h2 : env.make_shared_alloc stack_size <;> simp [Machine.log, h2]
  | some a =>
    cases h1 : env.Alloc stack_size with
    | none =>
      refine ⟨[.Alloc stack_size, .make_shared_alloc stack_size], ?_,
        by simp [bodyCalls, transfers, contextsMade, releases]⟩
      cases h2 : env.make_shared_alloc stack_size <;> simp [Machine.log, h1, h2]
    | some p =>
      refine ⟨[.Alloc stack_size], ?_, by simp [bodyCalls, transfers, contextsMade, releases]⟩
      simp [Machine.log, h1]

theorem Spawn_result (env : Env) (allocator strand : Option Nat) (h : SpawnHander)
    (stack_size : Int) (w : World) (hnew : env.New = true) :
    Spawn env allocator strand (some h) stack_size w =
      (true,
        some (YieldContext.ctor env allocator strand (some h)
          (max stack_size env.GetMemoryPageSize) w).y,
        { (YieldContext.ctor env allocator strand (some h)
            (max stack_size env.GetMemoryPageSize) w).w with
          strand_queue := (YieldContext.ctor env allocator strand (some h)
              (max stack_size env.GetMemoryPageSize) w).w.strand_queue ++
            (if strand.isSome then [Job.Invoke] else []),
          context_queue := (YieldContext.ctor env allocator strand (some h)
              (max stack_size env.GetMemoryPageSize) w).w.context_queue ++
            (if strand.isSome then [] else [Job.Invoke]) }) := by
  cases strand <;> simp [Spawn, hnew]

/-- C12: when `Spawn` is given a body and constructs the coroutine, it returns
true and has appended exactly one `Invoke` job: to the strand queue when a
strand is given, to the event loop queue otherwise, the other queue being
untouched. The job has not run when `Spawn` returns: the coroutine has status
RESUMED, both slots empty and still holds its body, and `Spawn` started no
body, made no context and no transfer and called no `Release`. For every
input, `Spawn` returns true exactly when it has posted the job. -/
theorem Spawn_posts_Invoke (env : Env) (allocator strand : Option Nat) (h : SpawnHander)
    (r : Int) (w : World) (y : YieldContext)
    (hy : (Spawn env allocator strand (some h) r w).2.1 = some y) :
    (Spawn env allocator strand (some h) r w).1 = true ∧
    (Spawn env allocator strand (some h) r w).2.2.strand_queue =
      w.strand_queue ++ (if strand.isSome then [Job.Invoke] else []) ∧
    (Spawn env allocator strand (some h) r w).2.2.context_queue =
      w.context_queue ++ (if strand.isSome then [] else [Job.Invoke]) ∧
    posted w (Spawn env allocator strand (some h) r w).2.2 = [Job.Invoke] ∧
    y.s_ = STATUS_RESUMED ∧ y.callee_ = none ∧ y.caller_ = none ∧ y.h_ = some h ∧
    y.strand_ = strand ∧
    (∃ tr, (Spawn env allocator strand (some h) r w).2.2.trace = w.trace ++ tr ∧
      bodyCalls tr = 0 ∧ transfers tr = 0 ∧ contextsMade tr = 0 ∧ releases tr = 0) ∧
    (∀ spawn, posted w (Spawn env allocator strand spawn r w).2.2 =
      if (Spawn env allocator strand spawn r w).1 then [Job.Invoke] else []) := by
  have hnew : env.New = true := by
    by_contra hn
    simp [Spawn, hn] at hy
  have hS := Spawn_result env allocator strand h r w hnew
  obtain ⟨hs, hc, hr, hh, _, hst, _⟩ :=
    ctor_fields env allocator strand (some h) (max r env.GetMemoryPageSize) w
  obtain ⟨ev, hw, hb, ht, hm, hrel⟩ :=
    ctor_world env allocator strand (some h) (max r env.GetMemoryPageSize) w
  have hposted : posted w (Spawn env allocator strand (some h) r w).2.2 = [Job.Invoke] := by
    rw [hS, hw]
    cases strand <;> simp [posted]
  rw [hS] at hy
  have hyeq : y = (YieldContext.ctor env allocator strand (some h)
      (max r env.GetMemoryPageSize) w).y := (Option.some.inj hy).symm
  refine ⟨by rw [hS], by rw [hS, hw], by rw [hS, hw], hposted, by rw [hyeq]; exact hs,
    by rw [hyeq]; exact hc, by rw [hyeq]; exact hr, by rw [hyeq]; exact hh,
    by rw [hyeq]; exact hst, ⟨ev, by rw [hS, hw], hb, ht, hm, hrel⟩, ?_⟩
  intro spawn
  cases spawn with
  | none => simp [Spawn, posted]
  | some h' =>
    have hS' := Spawn_result env allocator strand h' r w hnew
    obtain ⟨ev', hw', _⟩ :=
      ctor_world env allocator strand (some h') (max r env.GetMemoryPageSize) w
    rw [hS', hw']
    cases strand <;> simp [posted]

theorem Spawn_posts_Invoke_witness :
    (Spawn plainEnv (some 1) (some 7) (some twoSuspends) 65536 emptyWorld).2.1 =
      some (YieldContext.ctor plainEnv (some 1) (some 7) (some twoSuspends) 65536 emptyWorld).y ∧
    (Spawn plainEnv (some 1) (some 7) (some twoSuspends) 65536 emptyWorld).1 = true ∧
    (Spawn plainEnv (some 1) (some 7) (some twoSuspends) 65536 emptyWorld).2.2.strand_queue =
      emptyWorld.strand_queue ++ (if (some 7 : Option Nat).isSome then [Job.Invoke] else []) :=
  ⟨by decide,
    (Spawn_posts_Invoke plainEnv (some 1) (some 7) twoSuspends 65536 emptyWorld
      (YieldContext.ctor plainEnv (some 1) (some 7) (some twoSuspends) 65536 emptyWorld).y
      (by decide)).1,
    (Spawn_posts_Invoke plainEnv (some 1) (some 7) twoSuspends 65536 emptyWorld
      (YieldContext.ctor plainEnv (some 1) (some 7) (some twoSuspends) 65536 emptyWorld).y
      (by decide)).2.1⟩

/-! ## Request-resume -/

theorem leave_queues (self : fcontext_t) (target : Option fcontext_t) (data : Bool)
    (m : Machine) : queues (leave self target data m).2 = queues m := by
  unfold leave
  rcases target with _ | c
  · rfl
  · cases c <;> rfl

theorem Handle_resumed_queues (m : Machine) : queues (Handle_resumed m).2 = queues m := by
  unfold Handle_resumed
  split <;> rfl

theorem runBody_queues (b : SpawnHander) : ∀ m : Machine, queues (runBody b m).2 = queues m := by
  induction b with
  | done =>
    intro m
    unfold runBody Handle_tail Jump
    cases m.y.caller_ with
    | none => exact Handle_resumed_queues _
    | some c => exact leave_queues _ _ _ _
  | suspend onTrue onFalse ih1 ih2 =>
    intro m
    unfold runBody Suspend compare_exchange_strong
    split_ifs
    · exact leave_queues _ _ _ _
    · exact ih2 _

theorem enter_queues (target : Option fcontext_t) (data : Bool) (m : Machine) :
    queues (enter target data m).2 = queues m := by
  rcases target with _ | c
  · rfl
  · cases c with
    | parkedResumer => rfl
    | parkedHandle => exact Handle_resumed_queues _
    | entry sp size =>
      cases data with
      | false => rfl
      | true =>
        simp only [enter, Handle, Handle_entry, if_true, log_y]
        cases hh : m.y.h_ with
        | none => exact (runBody_queues _ _).trans rfl
        | some h => exact (runBody_queues _ _).trans rfl
    | parkedSuspend onTrue onFalse =>
      simp only [enter, Suspend_resumed, compare_exchange_strong]
      split_ifs
      · exact (runBody_queues _ _).trans rfl
      · exact (runBody_queues _ _).trans rfl

theorem SwitchTransfer_queues (t : transfer_t) (m : Machine) :
    queues (SwitchTransfer t m).2 = queues m := by
  by_cases hd : t.data = true <;> by_cases hs : m.y.s_ = STATUS_SUSPENDING <;>
    simp [SwitchTransfer, Switch, compare_exchange_strong, hd, hs, queues, Release, Machine.log]

theorem Resume_queues (m : Machine) : queues (Resume m).2 = queues m := by
  unfold Resume Resume_entry compare_exchange_strong
  split_ifs
  · simp only
    rcases he : enter m.y.callee_ true
      { m with y := { m.y with s_ := STATUS_RESUMING, callee_ := none } } with ⟨back, m2⟩
    have hq := enter_queues m.y.callee_ true
      { m with y := { m.y with s_ := STATUS_RESUMING, callee_ := none } }
    rw [he] at hq
    cases back with
    | halt f => exact hq
    | transfer t => exact (SwitchTransfer_queues t m2).trans hq
  · rfl

theorem Resume_resumed_ne_false (t : transfer_t) (m : Machine) :
    (Resume_resumed t m).1 ≠ .ok false := by
  by_cases hd : t.data = true <;> by_cases hs : m.y.s_ = STATUS_SUSPENDING <;>
    simp [Resume_resumed, SwitchTransfer, Switch, compare_exchange_strong, hd, hs, noexcept]

theorem Resume_false_iff (m : Machine) :
    (Resume m).1 = .ok false ↔ m.y.s_ ≠ STATUS_SUSPEND := by
  constructor
  · intro h hs
    simp only [Resume, Resume_entry, compare_exchange_strong, hs, if_true] at h
    rcases he : enter m.y.callee_ true
      { m with y := { m.y with s_ := STATUS_RESUMING, callee_ := none } } with ⟨back, m2⟩
    rw [he] at h
    cases back with
    | halt f => simp at h
    | transfer t => exact Resume_resumed_ne_false t m2 h
  · intro hs
    rw [Resume_fails m hs]

theorem R_effect (env : Env) (m : Machine) :
    (R env m).1 = env.Post ∧ (R env m).2.y = m.y ∧ (R env m).2.w.trace = m.w.trace ∧
    posted m.w (R env m).2.w = (if env.Post then [Job.R] else []) ∧
    (R env m).2.w.strand_queue =
      m.w.strand_queue ++ (if env.Post = true ∧ m.y.strand_.isSome then [Job.R] else []) ∧
    (R env m).2.w.context_queue =
      m.w.context_queue ++ (if env.Post = true ∧ m.y.strand_.isNone then [Job.R] else []) := by
  unfold R Executors.Post
  cases hp : env.Post <;> cases hs : m.y.strand_ <;> simp [posted]

/-- C13: `R` calls no `Resume` (the coroutine and the trace are as they were);
it hands one job to `Executors::Post` with the coroutine's own strand and
returns what the post returned, the job being appended (when the post accepts
it) to the strand queue if the coroutine has a strand and to the event loop
queue otherwise. When the job runs, the coroutine and the trace are what one
call of `Resume` makes them; if that `Resume` returned false, the coroutine is
as it was and the job has called `R` once more, posting one identical job
through the same binding; if it returned true the job posts nothing. -/
theorem request_resume_job (env : Env) (m : Machine) :
    ((R env m).1 = env.Post ∧ (R env m).2.y = m.y ∧ (R env m).2.w.trace = m.w.trace ∧
      posted m.w (R env m).2.w = (if env.Post then [Job.R] else []) ∧
      (R env m).2.w.strand_queue =
        m.w.strand_queue ++ (if env.Post = true ∧ m.y.strand_.isSome then [Job.R] else []) ∧
      (R env m).2.w.context_queue =
        m.w.context_queue ++ (if env.Post = true ∧ m.y.strand_.isNone then [Job.R] else [])) ∧
    (R_invoked env m).2.y = (Resume m).2.y ∧
    (R_invoked env m).2.w.trace = (Resume m).2.w.trace ∧
    ((Resume m).1 = .ok false →
      (Resume m).2 = m ∧ R_invoked env m = (.ok (), (R env m).2) ∧
      (R_invoked env m).2.y = m.y ∧
      posted m.w (R_invoked env m).2.w = (if env.Post then [Job.R] else [])) ∧
    ((Resume m).1 = .ok true →
      R_invoked env m = (.ok (), (Resume m).2) ∧ queues (R_invoked env m).2 = queues m ∧
      posted m.w (R_invoked env m).2.w = []) := by
  refine ⟨R_effect env m, ?_, ?_, ?_, ?_⟩
  · rcases hres : Resume m with ⟨r, m1⟩
    cases r with
    | error f => simp [R_invoked, hres]
    | ok b => cases b <;> simp [R_invoked, hres, (R_effect env m1).2.1]
  · rcases hres : Resume m with ⟨r, m1⟩
    cases r with
    | error f => simp [R_invoked, hres]
    | ok b => cases b <;> simp [R_invoked, hres, (R_effect env m1).2.2.1]
  · intro hf
    have hs := (Resume_false_iff m).mp hf
    have hres := Resume_fails m hs
    have hri : R_invoked env m = (.ok (), (R env m).2) := by simp [R_invoked, hres]
    refine ⟨by rw [hres], hri, ?_, ?_⟩
    · rw [hri]
      exact (R_effect env m).2.1
    · rw [hri]
      exact (R_effect env m).2.2.2.1
  · intro ht
    have hq := Resume_queues m
    rcases hres : Resume m with ⟨r, m1⟩
    rw [hres] at ht hq
    simp only at ht
    subst ht
    have hri : R_invoked env m = (.ok (), m1) := by simp [R_invoked, hres]
    refine ⟨hri, by rw [hri]; exact hq, ?_⟩
    rw [hri]
    simp only [queues, Prod.mk.injEq] at hq
    simp [posted, hq.1, hq.2]

/-! ## Invoke, and the return into Suspend -/

/-- C14: on a coroutine that holds no stack, `Invoke` calls `Release` once and
does nothing else: the trace gains the one event `Release` (no context made,
no transfer, no body started), the status word, both slots and the queues are
as they were. On a coroutine that holds a stack, `Invoke` makes the context at
`stack + stack_size_` with size `stack_size_` for `Handle`, jumps into it with
the coroutine as payload, and hands the transfer that comes back to the same
`Switch(t, y)` that `Resume` uses. -/
theorem Invoke_by_stack (m : Machine) :
    (m.y.stack_ = none →
      Invoke m = (.ok (), Release m) ∧ (Invoke m).2.w.trace = m.w.trace ++ [.Release] ∧
      (Invoke m).2.y.s_ = m.y.s_ ∧ (Invoke m).2.y.callee_ = m.y.callee_ ∧
      (Invoke m).2.y.caller_ = m.y.caller_ ∧ queues (Invoke m).2 = queues m) ∧
    (∀ st, m.y.stack_ = some st →
      Invoke_entry m =
        .jumped (some (.entry (st.ptr + m.y.stack_size_) m.y.stack_size_)) true
          (m.log (.make_fcontext (st.ptr + m.y.stack_size_) m.y.stack_size_)) ∧
      Invoke m =
        match enter (some (.entry (st.ptr + m.y.stack_size_) m.y.stack_size_)) true
            (m.log (.make_fcontext (st.ptr + m.y.stack_size_) m.y.stack_size_)) with
        | (.transfer t, m2) => Invoke_resumed t m2
        | (.halt f, m2) => (.error f, m2)) ∧
    (∀ t m2, (Invoke_resumed t m2).2 = (SwitchTransfer t m2).2 ∧
      (Resume_resumed t m2).2 = (SwitchTransfer t m2).2 ∧
      (Invoke_resumed t m2).1 = noexcept ((SwitchTransfer t m2).1.map fun _ => ()) ∧
      (Resume_resumed t m2).1 = noexcept (SwitchTransfer t m2).1) := by
  refine ⟨?_, ?_, fun t m2 => ⟨rfl, rfl, rfl, rfl⟩⟩
  · intro hst
    have hinv : Invoke m = (.ok (), Release m) := by simp [Invoke, Invoke_entry, hst]
    rw [hinv]
    exact ⟨rfl, rfl, rfl, rfl, rfl, rfl⟩
  · intro st hst
    have he : Invoke_entry m =
        .jumped (some (.entry (st.ptr + m.y.stack_size_) m.y.stack_size_)) true
          (m.log (.make_fcontext (st.ptr + m.y.stack_size_) m.y.stack_size_)) := by
      simp [Invoke_entry, hst]
    refine ⟨he, ?_⟩
    simp only [Invoke, he]

theorem Invoke_by_stack_witness :
    stacklessExample.y.stack_ = none ∧
    Invoke stacklessExample = (.ok (), Release stacklessExample) ∧
    (Invoke stacklessExample).2.w.trace = stacklessExample.w.trace ++ [.Release] :=
  ⟨rfl, ((Invoke_by_stack stacklessExample).1 rfl).1,
    ((Invoke_by_stack stacklessExample).1 rfl).2.1⟩

/-- C15: when the jump of `Suspend` returns, `Suspend` stores the context it
receives in `caller_` and returns the result of the CAS RESUMING -> RESUMED: it
returns true exactly when the status at that moment is RESUMING, and the status
is then RESUMED; for every other status it returns false and the status is as
it was. Nothing else changes. -/
theorem Suspend_after_transfer (t : transfer_t) (m : Machine) :
    (Suspend_resumed t m).2.y.caller_ = t.fctx ∧
    ((Suspend_resumed t m).1 = true ↔ m.y.s_ = STATUS_RESUMING) ∧
    (m.y.s_ = STATUS_RESUMING →
      Suspend_resumed t m =
        (true, { m with y := { m.y with caller_ := t.fctx, s_ := STATUS_RESUMED } })) ∧
    (m.y.s_ ≠ STATUS_RESUMING →
      Suspend_resumed t m = (false, { m with y := { m.y with caller_ := t.fctx } }) ∧
      (Suspend_resumed t m).2.y.s_ = m.y.s_) ∧
    (Suspend_resumed t m).2.y.callee_ = m.y.callee_ ∧
    (Suspend_resumed t m).2.w = m.w := by
  by_cases hs : m.y.s_ = STATUS_RESUMING <;>
    simp [Suspend_resumed, compare_exchange_strong, hs]

/-! ## The body is started at most once -/

theorem jumpIn_m (target : Option fcontext_t) (data : Bool) (m : Machine) :
    (jumpIn target data m).m = m.log (.jump_fcontext target data) := by
  unfold jumpIn
  rcases target with _ | c
  · rfl
  · cases c <;> rfl

theorem jumpOut_m (self : fcontext_t) (target : Option fcontext_t) (data : Bool) (m : Machine) :
    (jumpOut self target data m).m = m.log (.jump_fcontext target data) := by
  unfold jumpOut
  rcases target with _ | c
  · rfl
  · cases c <;> rfl

theorem step_body (a : Action) (c : Config) :
    bodyCalls (step a c).m.w.trace + bodyHeld (step a c).m ≤
      bodyCalls c.m.w.trace + bodyHeld c.m ∧
    bodyCalls c.m.w.trace ≤ bodyCalls (step a c).m.w.trace ∧
    (c.m.y.h_ = none → (step a c).m.y.h_ = none) := by
  obtain ⟨⟨⟨s, callee, caller, h, strand, stack, size, alloc⟩, w⟩, ctl⟩ := c
  cases a
  · -- Invoke
    cases ctl <;> try exact ⟨le_refl _, le_refl _, id⟩
    simp only [step, Invoke_entry]
    cases stack with
    | none =>
      cases h <;>
        simp [Release, Machine.log, YieldContext.dtor, bodyCalls_append, bodyCalls, bodyHeld]
    | some st =>
      simp [jumpIn_m, Machine.log, bodyCalls_append, bodyCalls, bodyHeld]
  · -- Resume
    cases ctl <;> try exact ⟨le_refl _, le_refl _, id⟩
    all_goals
      simp only [step, Resume_entry, compare_exchange_strong]
      split_ifs <;>
        simp [jumpIn_m, Machine.log, bodyCalls_append, bodyCalls, bodyHeld]
  · -- run
    cases ctl with
    | spawned => exact ⟨le_refl _, le_refl _, id⟩
    | outside => exact ⟨le_refl _, le_refl _, id⟩
    | stopped f => exact ⟨le_refl _, le_refl _, id⟩
    | body rest =>
      cases rest with
      | done =>
        simp only [step, Handle_tail, Jump]
        cases caller with
        | none =>
          simp only [Handle_resumed]
          cases callee <;> simp [bodyHeld]
        | some c => simp [jumpOut_m, Machine.log, bodyCalls_append, bodyCalls, bodyHeld]
      | suspend onTrue onFalse =>
        simp only [step, Suspend, compare_exchange_strong]
        split_ifs <;> simp [jumpOut_m, Machine.log, bodyCalls_append, bodyCalls, bodyHeld]
    | landing target t =>
      cases target with
      | entry sp size =>
        simp only [step, Handle_entry]
        split_ifs
        · cases h <;> simp [Machine.log, bodyCalls_append, bodyCalls, bodyHeld]
        · exact ⟨le_refl _, le_refl _, id⟩
      | parkedSuspend onTrue onFalse =>
        simp only [step, Suspend_resumed, compare_exchange_strong]
        split_ifs <;> simp [Machine.log, bodyCalls_append, bodyCalls, bodyHeld]
      | parkedHandle =>
        simp only [step, Handle_resumed]
        cases callee <;> simp [bodyHeld]
      | parkedResumer =>
        simp only [step, SwitchTransfer, Switch, compare_exchange_strong]
        split_ifs <;> cases h <;>
          simp [Release, Machine.log, YieldContext.dtor, bodyCalls_append, bodyCalls, bodyHeld,
            noexcept]

theorem leave_bodyCalls (self : fcontext_t) (target : Option fcontext_t) (data : Bool)
    (m : Machine) : bodyCalls (leave self target data m).2.w.trace = bodyCalls m.w.trace := by
  unfold leave
  rcases target with _ | c
  · simp [Machine.log, bodyCalls_append, bodyCalls]
  · cases c <;> simp [Machine.log, bodyCalls_append, bodyCalls]

theorem runBody_bodyCalls (b : SpawnHander) : ∀ m : Machine,
    bodyCalls (runBody b m).2.w.trace = bodyCalls m.w.trace := by
  induction b with
  | done =>
    intro m
    unfold runBody Handle_tail Jump
    cases m.y.caller_ with
    | none =>
      simp only [Handle_resumed]
      cases m.y.callee_ <;> rfl
    | some c => exact (leave_bodyCalls _ _ _ _).trans rfl
  | suspend onTrue onFalse ih1 ih2 =>
    intro m
    unfold runBody Suspend compare_exchange_strong
    split_ifs
    · exact (leave_bodyCalls _ _ _ _).trans rfl
    · simp only []
      rw [ih2]
      simp [Machine.log, bodyCalls_append, bodyCalls]

theorem Steps_body (c0 c : Config) (hs : Steps c0 c) :
    bodyCalls c.m.w.trace + bodyHeld c.m ≤ bodyCalls c0.m.w.trace + bodyHeld c0.m ∧
    bodyCalls c0.m.w.trace ≤ bodyCalls c.m.w.trace ∧
    (c0.m.y.h_ = none → c.m.y.h_ = none) := by
  induction hs with
  | refl => exact ⟨le_refl _, le_refl _, id⟩
  | step a c _ ih =>
    obtain ⟨h1, h2, h3⟩ := step_body a c
    exact ⟨h1.trans ih.1, ih.2.1.trans h2, fun h => h3 (ih.2.2 h)⟩

theorem bodyHeld_le (m : Machine) : bodyHeld m ≤ 1 := by
  unfold bodyHeld
  split_ifs <;> simp

theorem bodyHeld_zero (m : Machine) : bodyHeld m = 0 ↔ m.y.h_ = none := by
  unfold bodyHeld
  cases m.y.h_ <;> simp

/-- C16: `Handle` takes the body out of the coroutine and leaves `h_` empty
before it calls the body, so a second entry of `Handle` on the same coroutine
finds no body and starts none; a `Handle` entered with a null payload does
nothing. Over any sequence of steps from any configuration the body is started
at most once; it is not started at all when `h_` was empty at the beginning;
the step that starts it leaves `h_` empty, and `h_` stays empty from then on. -/
theorem body_started_once (c0 c : Config) (hs : Steps c0 c) :
    bodyCalls c.m.w.trace ≤ bodyCalls c0.m.w.trace + 1 ∧
    (c0.m.y.h_ = none →
      c.m.y.h_ = none ∧ bodyCalls c.m.w.trace = bodyCalls c0.m.w.trace) ∧
    (bodyCalls c.m.w.trace = bodyCalls c0.m.w.trace + 1 → c.m.y.h_ = none) ∧
    (∀ a, bodyCalls (step a c).m.w.trace = bodyCalls c.m.w.trace + 1 →
      c.m.y.h_ ≠ none ∧ (step a c).m.y.h_ = none) ∧
    (∀ t m, (Handle_entry t m).1 = m.y.h_ ∧ (Handle_entry t m).2.y.h_ = none ∧
      ∀ t2, (Handle_entry t2 (Handle_entry t m).2).1 = none) ∧
    (∀ t m b, t.data = true → m.y.h_ = some b →
      Handle t m = runBody b ((Handle_entry t m).2.log (.h m.y.s_)) ∧
      ((Handle_entry t m).2.log (.h m.y.s_)).y.h_ = none) ∧
    (∀ t m, m.y.h_ = none → bodyCalls (Handle t m).2.w.trace = bodyCalls m.w.trace) ∧
    (∀ fctx m, Handle { fctx := fctx, data := false } m = (.halt .exit, m)) ∧
    (∀ fctx m sp size,
      step .run { m := m, ctl := .landing (.entry sp size) { fctx := fctx, data := false } } =
        { m := m, ctl := .stopped .exit }) := by
  obtain ⟨h1, h2, h3⟩ := Steps_body c0 c hs
  have hle := bodyHeld_le c0.m
  refine ⟨by omega, ?_, ?_, ?_, fun t m => ⟨rfl, rfl, fun _ => rfl⟩, ?_, ?_,
    fun _ _ => rfl, fun _ _ _ _ => rfl⟩
  · intro h0
    have hz := (bodyHeld_zero c0.m).mpr h0
    exact ⟨h3 h0, by omega⟩
  · intro heq
    exact (bodyHeld_zero c.m).mp (by omega)
  · intro a heq
    obtain ⟨s1, _, _⟩ := step_body a c
    have hle2 := bodyHeld_le c.m
    refine ⟨?_, (bodyHeld_zero _).mp (by omega)⟩
    intro hn
    have hz := (bodyHeld_zero c.m).mpr hn
    omega
  · intro t m b hd hh
    refine ⟨?_, rfl⟩
    simp [Handle, Handle_entry, hd, hh]
  · intro t m hh
    by_cases hd : t.data = true
    · simp only [Handle, Handle_entry, hd, if_true, hh]
      exact (runBody_bodyCalls _ _).trans rfl
    · simp [Handle, hd]

theorem body_started_once_witness :
    Steps (spawnedConfig plainEnv (some 1) none (some twoSuspends) 65536 emptyWorld)
      (step .run (step .run (step .Invoke
        (spawnedConfig plainEnv (some 1) none (some twoSuspends) 65536 emptyWorld)))) ∧
    bodyCalls (step .run (step .run (step .Invoke
        (spawnedConfig plainEnv (some 1) none (some twoSuspends) 65536 emptyWorld)))).m.w.trace ≤
      bodyCalls
        (spawnedConfig plainEnv (some 1) none (some twoSuspends) 65536 emptyWorld).m.w.trace + 1 :=
  ⟨.step _ _ (.step _ _ (.step _ _ .refl)),
    (body_started_once _ _ (.step _ _ (.step _ _ (.step _ _ .refl)))).1⟩

/-! ## Stack acquisition in the constructor -/

/-- C17: in the constructor, when an allocator is supplied and its `Alloc` of
`stack_size` bytes returns a buffer, the stack is that buffer with the pool's
`Free` as deleter and no generic allocation is made; when no allocator is
supplied or `Alloc` returns null, the stack is what the generic allocation of
the same `stack_size` returns, with the generic deleter; the coroutine holds no
stack exactly when both fail. In every case the status is RESUMED, both slots
are empty and `stack_size_` is the size asked for. -/
theorem ctor_stack (env : Env) (allocator strand : Option Nat) (spawn : Option SpawnHander)
    (stack_size : Int) (w : World) :
    (∀ p, allocator ≠ none → env.Alloc stack_size = some p →
      (YieldContext.ctor env allocator strand spawn stack_size w).y.stack_ =
        some { ptr := p, pooled := true } ∧
      (YieldContext.ctor env allocator strand spawn stack_size w).w.trace =
        w.trace ++ [.Alloc stack_size]) ∧
    (allocator = none ∨ env.Alloc stack_size = none →
      (YieldContext.ctor env allocator strand spawn stack_size w).y.stack_ =
        (env.make_shared_alloc stack_size).map (fun p => { ptr := p, pooled := false }) ∧
      (YieldContext.ctor env allocator strand spawn stack_size w).w.trace =
        w.trace ++ (if allocator.isSome then [.Alloc stack_size] else []) ++
          [.make_shared_alloc stack_size]) ∧
    ((YieldContext.ctor env allocator strand spawn stack_size w).y.stack_ = none ↔
      (allocator = none ∨ env.Alloc stack_size = none) ∧
        env.make_shared_alloc stack_size = none) ∧
    (YieldContext.ctor env allocator strand spawn stack_size w).y.s_ = STATUS_RESUMED ∧
    (YieldContext.ctor env allocator strand spawn stack_size w).y.callee_ = none ∧
    (YieldContext.ctor env allocator strand spawn stack_size w).y.caller_ = none ∧
    (YieldContext.ctor env allocator strand spawn stack_size w).y.stack_size_ = stack_size := by
  obtain ⟨hs, hc, hr, _, hsz, _⟩ := ctor_fields env allocator strand spawn stack_size w
  refine ⟨?_, ?_, ?_, hs, hc, hr, hsz⟩
  · intro p ha hp
    obtain ⟨a, rfl⟩ := Option.ne_none_iff_exists'.mp ha
    simp [YieldContext.ctor, Machine.log, hp]
  · intro h
    cases allocator with
    | none =>
      cases h2 : env.make_shared_alloc stack_size <;> simp [YieldContext.ctor, Machine.log, h2]
    | some a =>
      have h1 : env.Alloc stack_size = none := by
        rcases h with h | h
        · cases h
        · exact h
      cases h2 : env.make_shared_alloc stack_size <;>
        simp [YieldContext.ctor, Machine.log, h1, h2]
  · cases allocator <;> cases h1 : env.Alloc stack_size <;>
      cases h2 : env.make_shared_alloc stack_size <;>
      simp [YieldContext.ctor, Machine.log, h1, h2]

/-! ## What the result of Resume tells -/

/-- C18: once the entry CAS of `Resume` has succeeded and the transfer has come
back, `Resume` returns true in both outcomes: with a non-null payload and
status SUSPENDING (the coroutine yielded: the status becomes SUSPEND and
`callee_` holds the context received), and with a null payload (the coroutine
finished: `Release` is called, status and slots are not touched); it never
returns false there. A whole call of `Resume` returns false exactly when the
status is not SUSPEND; on a parked coroutine it returns true both when the body
parks in a further `Suspend` and when the body returns. -/
theorem Resume_true_both_ways (t : transfer_t) (m : Machine) :
    (t.data = true → m.y.s_ = STATUS_SUSPENDING →
      Resume_resumed t m =
        (.ok true, { m with y := { m.y with callee_ := t.fctx, s_ := STATUS_SUSPEND } })) ∧
    (t.data = false →
      Resume_resumed t m = (.ok true, Release m) ∧ (Release m).y.s_ = m.y.s_ ∧
      (Release m).y.callee_ = m.y.callee_ ∧ (Release m).y.caller_ = m.y.caller_ ∧
      (Release m).w.trace = m.w.trace ++ [.Release]) ∧
    (Resume_resumed t m).1 ≠ .ok false ∧
    ((Resume m).1 = .ok false ↔ m.y.s_ ≠ STATUS_SUSPEND) ∧
    (m.y.s_ = STATUS_SUSPEND → (Resume m).1 = .ok true ∨ ∃ f, (Resume m).1 = .error f) ∧
    (∀ onTrue onFalse onFalse0, m.y.s_ = STATUS_SUSPEND → m.y.caller_ = none →
      m.y.callee_ = some (.parkedSuspend (.suspend onTrue onFalse) onFalse0) →
      (Resume m).1 = .ok true ∧ (Resume m).2.y.s_ = STATUS_SUSPEND ∧
      (Resume m).2.y.callee_ = some (.parkedSuspend onTrue onFalse) ∧
      releases (Resume m).2.w.trace = releases m.w.trace) ∧
    (∀ onFalse0, m.y.s_ = STATUS_SUSPEND → m.y.caller_ = none →
      m.y.callee_ = some (.parkedSuspend .done onFalse0) →
      (Resume m).1 = .ok true ∧ releases (Resume m).2.w.trace = releases m.w.trace + 1) := by
  refine ⟨?_, ?_, Resume_resumed_ne_false t m, Resume_false_iff m, ?_, ?_, ?_⟩
  · intro hd hs
    simp [Resume_resumed, SwitchTransfer, Switch, compare_exchange_strong, hd, hs, noexcept]
  · intro hd
    refine ⟨?_, rfl, rfl, rfl, rfl⟩
    simp [Resume_resumed, SwitchTransfer, hd, noexcept]
  · intro hs
    have hne : (Resume m).1 ≠ .ok false := fun h => (Resume_false_iff m).mp h hs
    rcases hres : (Resume m).1 with f | b
    · exact Or.inr ⟨f, rfl⟩
    · cases b
      · exact absurd hres hne
      · exact Or.inl rfl
  · intro onTrue onFalse onFalse0 hs hr hc
    have hres := Resume_parked_more m onTrue onFalse onFalse0 hs hc hr
    rw [hres]
    refine ⟨rfl, hs, rfl, ?_⟩
    simp [releases]
  · intro onFalse0 hs hr hc
    have hres := Resume_parked_last m onFalse0 hs hc hr
    rw [hres]
    refine ⟨rfl, ?_⟩
    simp [releases]

theorem Resume_true_both_ways_witness :
    yieldedTransfer.data = true ∧ suspendingExample.y.s_ = STATUS_SUSPENDING ∧
    (Resume_resumed yieldedTransfer suspendingExample).1 = .ok true ∧
    (Resume parkedExample).1 = .ok true :=
  ⟨rfl, rfl,
    congrArg Prod.fst ((Resume_true_both_ways yieldedTransfer suspendingExample).1 rfl rfl),
    ((Resume_true_both_ways yieldedTransfer parkedExample).2.2.2.2.2.2 .done rfl rfl rfl).1⟩

/-! ## Request-resume on a coroutine that is not parked -/

theorem takeJob_after_R (env : Env) (m : Machine) (hpost : env.Post = true)
    (hq : pending m = []) :
    pending (R env m).2 = [Job.R] ∧ takeJob (R env m).2 = some (Job.R, m) := by
  obtain ⟨⟨s, callee, caller, h, strand, stack, size, alloc⟩, ⟨tr, sq, cq⟩⟩ := m
  cases strand with
  | none =>
    have hq' : cq = [] := hq
    subst hq'
    simp [R, Executors.Post, hpost, pending, takeJob]
  | some st =>
    have hq' : sq = [] := hq
    subst hq'
    simp [R, Executors.Post, hpost, pending, takeJob]

theorem R_invoked_fails (env : Env) (m : Machine) (hs : m.y.s_ ≠ STATUS_SUSPEND) :
    R_invoked env m = (.ok (), (R env m).2) := by
  simp [R_invoked, Resume_fails m hs]

/-- C19: on a coroutine whose status is not SUSPEND, with an accepting post and
no other job in its queue: once `R` has been called, after the queue has run
any number `k` of jobs the machine is exactly what it was right after `R`: one
request-resume job is pending, the coroutine and the trace are as before `R`;
each of the `k` jobs called `Resume` and got false. The queue never runs empty. -/
theorem request_resume_never_ends (env : Env) (m : Machine) (k : Nat)
    (hs : m.y.s_ ≠ STATUS_SUSPEND) (hpost : env.Post = true) (hq : pending m = []) :
    runJobs env k (R env m).2 = some (R env m).2 ∧
    pending (R env m).2 = [Job.R] ∧
    resumeAttempts env k (R env m).2 = List.replicate k (.ok false) ∧
    (R env m).2.y = m.y ∧ (R env m).2.w.trace = m.w.trace ∧
    (∀ m2, runJobs env k (R env m).2 = some m2 → takeJob m2 ≠ none) := by
  obtain ⟨hp, ht⟩ := takeJob_after_R env m hpost hq
  have hri := R_invoked_fails env m hs
  have hrun : ∀ k, runJobs env k (R env m).2 = some (R env m).2 := by
    intro k
    induction k with
    | zero => rfl
    | succ k ih => simp [runJobs, ht, runJob, hri, ih]
  have hatt : ∀ k, resumeAttempts env k (R env m).2 = List.replicate k (.ok false) := by
    intro k
    induction k with
    | zero => rfl
    | succ k ih => simp [resumeAttempts, ht, hri, ih, Resume_fails m hs, List.replicate_succ]
  refine ⟨hrun k, hp, hatt k, (R_effect env m).2.1, (R_effect env m).2.2.1, ?_⟩
  intro m2 h2
  rw [hrun k] at h2
  cases h2
  rw [ht]
  simp

theorem request_resume_never_ends_witness :
    finishedExample.y.s_ ≠ STATUS_SUSPEND ∧ plainEnv.Post = true ∧
    pending finishedExample = [] ∧
    runJobs plainEnv 5 (R plainEnv finishedExample).2 = some (R plainEnv finishedExample).2 ∧
    pending (R plainEnv finishedExample).2 = [Job.R] :=
  ⟨by decide, rfl, rfl,
    (request_resume_never_ends plainEnv finishedExample 5 (by decide) rfl rfl).1,
    (request_resume_never_ends plainEnv finishedExample 5 (by decide) rfl rfl).2.1⟩

end ppp.coroutines
